import Mathlib

/-!
# SimpleNeuralNetwork: `matrix.hpp`

A shallow embedding of the dense matrix container `matrix<T>` of `src/matrix.hpp`
and a verification of its algebraic contracts.

Modelling conventions

* `std::vector<X>` is a `List X`; an index outside `[0, size)` is undefined behaviour in
  C++ and is reported here as `Error.outOfRange`.
* `assert(c)` with `c` false is reported as `Error.assertion` (assertions are taken to be
  compiled in).
* `size_t` is an unsigned 64-bit integer: a `Nat` below `2 ^ 64`, arithmetic reduced
  modulo `2 ^ 64`.  `int` is a signed 32-bit integer: an `Int` between `INT_MIN` and
  `INT_MAX`; conversions between the two are modular.  An `int` difference that leaves the
  range is reported as `Error.overflow`; an `int` counter stepped past `INT_MAX` continues
  at `INT_MIN` (two's complement).
* Memory exhaustion is not modelled: an allocation always succeeds.  `Allocatable n m` says
  that an `n x m` store is within what the vectors can hold at all.
* A parameter passed by `const` reference to a member that writes to `*this` may refer to
  `*this` or to one of its cells: `MatrixRef` and `ScalarRef` say what it refers to, and it
  is read again each time the code reads it.  Members that do not write to `*this` take
  their operands by value.
* `T()` (value initialisation) is `0`.
* A `for` loop is `forRange lo hi body s`; a run that stops early keeps the state it had
  reached (`Run.fault`).
-/

namespace SimpleNN

/-! ## Machine integers -/

/-- Number of values of `size_t` (unsigned, 64 bits). -/
def SIZE_MOD : Nat := 2 ^ 64

/-- Largest `int` (signed, 32 bits). -/
def INT_MAX : Int := 2 ^ 31 - 1

/-- Smallest `int`. -/
def INT_MIN : Int := -(2 ^ 31)

/-- Upper bound of `std::vector<X>::max_size()` for every `X` (`PTRDIFF_MAX`). -/
def VEC_MAX : Nat := 2 ^ 63 - 1

/-- Conversion `int -> size_t` (modular). -/
def size_of_int (z : Int) : Nat := (z % (2 ^ 64 : Int)).toNat

/-- Conversion `size_t -> int` (modular, two's complement). -/
def int_of_size (n : Nat) : Int :=
  if n % 2 ^ 32 < 2 ^ 31 then ((n % 2 ^ 32 : Nat) : Int) else ((n % 2 ^ 32 : Nat) : Int) - 2 ^ 32

/-- Sum of two `size_t`. -/
def size_add (a b : Nat) : Nat := (a + b) % SIZE_MOD

/-- Difference of two `size_t`. -/
def size_sub (a b : Nat) : Nat := (a % SIZE_MOD + SIZE_MOD - b % SIZE_MOD) % SIZE_MOD

/-! ## Errors and runs -/

/-- The ways an operation can go wrong. -/
inductive Error where
  | assertion
  | outOfRange
  | overflow
deriving DecidableEq, Repr

/-- Difference of two `int`; signed overflow is undefined behaviour. -/
def int_sub (a b : Int) : Except Error Int :=
  if INT_MIN ≤ a - b ∧ a - b ≤ INT_MAX then .ok (a - b) else .error .overflow

/-- Outcome of running a piece of code on a state: it completed in state `s`, or it
stopped with error `e` having brought the state to `s`. -/
inductive Run (σ : Type) where
  | done (s : σ)
  | fault (e : Error) (s : σ)
deriving DecidableEq, Repr

/-- A single step that either fails without touching the state or succeeds. -/
def Run.ofExcept {σ : Type} (s : σ) : Except Error σ → Run σ
  | .ok s' => .done s'
  | .error e => .fault e s

/-- Forget the state reached by a failed run. -/
def Run.toExcept {σ : Type} : Run σ → Except Error σ
  | .done s => .ok s
  | .fault e _ => .error e

/-- Evaluate an expression that may fail, then continue. -/
def Run.eval {α σ : Type} (x : Except Error α) (s : σ) (k : α → Run σ) : Run σ :=
  match x with
  | .ok a => k a
  | .error e => .fault e s

/-- Sequencing: the second piece of code runs in the state the first one completed in. -/
def Run.andThen {σ : Type} (r : Run σ) (k : σ → Run σ) : Run σ :=
  match r with
  | .done s => k s
  | .fault e s => .fault e s

/-- Run `body i` for `cnt` consecutive values of `i`, starting at `i`. -/
def forLoop {σ : Type} (body : Nat → σ → Run σ) : Nat → Nat → σ → Run σ
  | 0, _, s => .done s
  | cnt + 1, i, s =>
    match body i s with
    | .done s' => forLoop body cnt (i + 1) s'
    | .fault e s' => .fault e s'

/-- The loop `for (size_t i = lo; i < hi; ++i) body`. -/
def forRange {σ : Type} (lo hi : Nat) (body : Nat → σ → Run σ) (s : σ) : Run σ :=
  forLoop body (hi - lo) lo s

/-! ## Vectors -/

/-- The read `v[i]`. -/
def vec_get {α : Type} (v : List α) (i : Nat) : Except Error α :=
  match v[i]? with
  | some x => .ok x
  | none => .error .outOfRange

/-- The call `v.resize(n)`, new elements being `fill`. -/
def vec_resize {α : Type} (v : List α) (n : Nat) (fill : α) : List α :=
  v.take n ++ List.replicate (n - v.length) fill

/-! ## The matrix type -/

/-- The struct `matrix<T>`: rows of cells, and the shape vector. -/
structure matrix (T : Type) where
  data : List (List T)
  dim : List Nat
deriving DecidableEq, Repr

variable {T : Type}

/-- The read `data[i][j]`. -/
def matrix.get (A : matrix T) (i j : Nat) : Except Error T :=
  match A.data[i]? with
  | none => .error .outOfRange
  | some row =>
    match row[j]? with
    | none => .error .outOfRange
    | some v => .ok v

/-- The write `data[i][j] = v`. -/
def matrix.set (A : matrix T) (i j : Nat) (v : T) : Except Error (matrix T) :=
  match A.data[i]? with
  | none => .error .outOfRange
  | some row =>
    if j < row.length then .ok { A with data := A.data.set i (row.set j v) }
    else .error .outOfRange

/-- What a `const matrix<T>&` parameter of a mutating member refers to: another object, or
the matrix the member is called on. -/
inductive MatrixRef (T : Type) where
  | other (B : matrix T)
  | this
deriving DecidableEq, Repr

/-- The matrix a reference denotes while `*this` is `self`. -/
def MatrixRef.read (r : MatrixRef T) (self : matrix T) : matrix T :=
  match r with
  | .other B => B
  | .this => self

/-- What a `const T&` parameter of a mutating member refers to: an object outside the
matrix, or the cell `data[i][j]` of the matrix the member is called on. -/
inductive ScalarRef (T : Type) where
  | outside (k : T)
  | cell (i j : Nat)
deriving DecidableEq, Repr

/-- The value a reference denotes while `*this` is `self`. -/
def ScalarRef.read (r : ScalarRef T) (self : matrix T) : Except Error T :=
  match r with
  | .outside k => .ok k
  | .cell i j => self.get i j

/-- The loop `for (i = 0; i < data.size(); ++i) data[i].resize(m)`. -/
def resize_rows [Zero T] (data : List (List T)) (m : Nat) : List (List T) :=
  data.map (fun row => vec_resize row m 0)

/-- The constructor `matrix()`. -/
def matrix.ctor_default : matrix T :=
  { data := [], dim := [] }

/-- The constructor `matrix(size_t n, size_t m)`. -/
def matrix.ctor_nm [Zero T] (n m : Nat) : matrix T :=
  { dim := [n, m], data := resize_rows (vec_resize [] n []) m }

/-- The statements `data.resize(dim[0]); for (i < dim[0]) data[i].resize(dim[1]);` shared by
`matrix(d)` and `resize(d)`; `dim[1]` is read only when `dim[0]` is positive. -/
def resize_data [Zero T] (A : matrix T) : Run (matrix T) :=
  Run.eval (vec_get A.dim 0) A fun n =>
  let A1 : matrix T := { A with data := vec_resize A.data n [] }
  if n = 0 then .done A1
  else Run.eval (vec_get A.dim 1) A1 fun m =>
    .done { A1 with data := resize_rows A1.data m }

/-- The constructor `matrix(const std::vector<size_t>& d)`. -/
def matrix.ctor_d [Zero T] (d : List Nat) : Except Error (matrix T) :=
  (resize_data { data := [], dim := d }).toExcept

/-- The member `resize(const std::vector<size_t>& d)`. -/
def matrix.resize_d [Zero T] (self : matrix T) (d : List Nat) : Run (matrix T) :=
  resize_data { self with dim := d }

/-- The member `resize(size_t new_n, size_t new_m)`. -/
def matrix.resize [Zero T] (self : matrix T) (new_n new_m : Nat) : Run (matrix T) :=
  self.resize_d [new_n, new_m]

/-- The loop nest `for (i < dim[0]) for (j < dim[1]) body(i, j)`. -/
def forCells (dim : List Nat) (body : Nat → Nat → matrix T → Run (matrix T))
    (s : matrix T) : Run (matrix T) :=
  Run.eval (vec_get dim 0) s fun n =>
  forRange 0 n (fun i s =>
    Run.eval (vec_get dim 1) s fun m =>
    forRange 0 m (fun j s => body i j s) s) s

/-- The loop nest of `operator+`, `operator-`, `operator^`:
`res.data[i][j] = data[i][j] op rhs.data[i][j]`. -/
def zip_into (op : T → T → T) (self rhs : matrix T) (res : matrix T) : Run (matrix T) :=
  forCells self.dim (fun i j res => Run.ofExcept res (do
    let a ← self.get i j
    let b ← rhs.get i j
    res.set i j (op a b))) res

/-- The loop nest of `operator+=`, `operator-=`, `operator^=`:
`data[i][j] op= rhs.data[i][j]`, `rhs` being read through its reference. -/
def zip_assign (op : T → T → T) (rhs : MatrixRef T) (self : matrix T) : Run (matrix T) :=
  forCells self.dim (fun i j self => Run.ofExcept self (do
    let b ← (rhs.read self).get i j
    let a ← self.get i j
    self.set i j (op a b))) self

/-- The member `operator+`. -/
def matrix.add [Zero T] [Add T] (self rhs : matrix T) : Except Error (matrix T) :=
  if self.dim = rhs.dim then do
    let res ← matrix.ctor_d self.dim
    (zip_into (fun a b => a + b) self rhs res).toExcept
  else .error .assertion

/-- The member `operator+=`. -/
def matrix.add_assign [Add T] (self : matrix T) (rhs : MatrixRef T) : Run (matrix T) :=
  if self.dim = (rhs.read self).dim then zip_assign (fun a b => a + b) rhs self
  else .fault .assertion self

/-- The member `operator-`. -/
def matrix.sub [Zero T] [Sub T] (self rhs : matrix T) : Except Error (matrix T) :=
  if self.dim = rhs.dim then do
    let res ← matrix.ctor_d self.dim
    (zip_into (fun a b => a - b) self rhs res).toExcept
  else .error .assertion

/-- The member `operator-=`. -/
def matrix.sub_assign [Sub T] (self : matrix T) (rhs : MatrixRef T) : Run (matrix T) :=
  if self.dim = (rhs.read self).dim then zip_assign (fun a b => a - b) rhs self
  else .fault .assertion self

/-- The member `operator^` (Hadamard product). -/
def matrix.hadamard [Zero T] [Mul T] (self rhs : matrix T) : Except Error (matrix T) :=
  if self.dim = rhs.dim then do
    let res ← matrix.ctor_d self.dim
    (zip_into (fun a b => a * b) self rhs res).toExcept
  else .error .assertion

/-- The member `operator^=`. -/
def matrix.hadamard_assign [Mul T] (self : matrix T) (rhs : MatrixRef T) : Run (matrix T) :=
  if self.dim = (rhs.read self).dim then zip_assign (fun a b => a * b) rhs self
  else .fault .assertion self

/-- The member `operator*(const T& scalar)`. -/
def matrix.smul [Zero T] [Mul T] (self : matrix T) (scalar : T) : Except Error (matrix T) := do
  let res ← matrix.ctor_d self.dim
  (forCells self.dim (fun i j res => Run.ofExcept res (do
    let a ← self.get i j
    res.set i j (a * scalar))) res).toExcept

/-- The member `apply(f)`. -/
def matrix.apply [Zero T] (self : matrix T) (f : T → T) : Except Error (matrix T) := do
  let res ← matrix.ctor_d self.dim
  (forCells self.dim (fun i j res => Run.ofExcept res (do
    let a ← self.get i j
    res.set i j (f a))) res).toExcept

/-! ## Matrix product -/

/-- The statement `res.data[i][j] += data[i][k] * rhs.data[k][j]`. -/
def mul_step [Add T] [Mul T] (self rhs : matrix T) (i k j : Nat) (res : matrix T) :
    Run (matrix T) :=
  Run.ofExcept res (do
    let c ← res.get i j
    let a ← self.get i k
    let b ← rhs.get k j
    res.set i j (c + a * b))

/-- The member `operator*(const matrix<T>& rhs)`: the assertion, then the `ikj` loop nest
over a zero matrix. -/
def matrix.mul [Zero T] [Add T] [Mul T] (self rhs : matrix T) : Except Error (matrix T) := do
  let p ← vec_get self.dim 1
  let p' ← vec_get rhs.dim 0
  if p = p' then do
    let n ← vec_get self.dim 0
    let m ← vec_get rhs.dim 1
    (forRange 0 n (fun i res =>
      forRange 0 p (fun k res =>
        forRange 0 m (fun j res => mul_step self rhs i k j res) res) res)
      (matrix.ctor_nm n m)).toExcept
  else .error .assertion

/-- The member `operator*=(const matrix<T>& rhs)`: `res = (*this) * rhs; (*this) = res`. -/
def matrix.mul_assign [Zero T] [Add T] [Mul T] (self : matrix T) (rhs : MatrixRef T) :
    Run (matrix T) :=
  match self.mul (rhs.read self) with
  | .ok res => .done res
  | .error e => .fault e self

/-! ## Transpose, concatenation, factories, slice -/

/-- The member `transpose()`. -/
def matrix.transpose [Zero T] (self : matrix T) : Except Error (matrix T) := do
  let m ← vec_get self.dim 1
  let n ← vec_get self.dim 0
  (forRange 0 n (fun i res =>
    forRange 0 m (fun j res => Run.ofExcept res (do
      let a ← self.get i j
      res.set j i a)) res) (matrix.ctor_nm m n)).toExcept

/-- The function `concate_h(a, b)`. -/
def concate_h [Zero T] (a b : matrix T) : Except Error (matrix T) := do
  let n ← vec_get a.dim 0
  let n' ← vec_get b.dim 0
  if n = n' then do
    let ma ← vec_get a.dim 1
    let mb ← vec_get b.dim 1
    (forRange 0 n (fun i res =>
      (forRange 0 ma (fun j res => Run.ofExcept res (do
          let v ← a.get i j
          res.set i j v)) res).andThen
        (forRange 0 mb (fun j res => Run.ofExcept res (do
          let v ← b.get i j
          res.set i (size_add j ma) v)))) (matrix.ctor_nm n (size_add ma mb))).toExcept
  else .error .assertion

/-- The function `concate_v(a, b)`. -/
def concate_v [Zero T] (a b : matrix T) : Except Error (matrix T) := do
  let m ← vec_get a.dim 1
  let m' ← vec_get b.dim 1
  if m = m' then do
    let na ← vec_get a.dim 0
    let nb ← vec_get b.dim 0
    (forRange 0 m (fun j res =>
      (forRange 0 na (fun i res => Run.ofExcept res (do
          let v ← a.get i j
          res.set i j v)) res).andThen
        (forRange 0 nb (fun i res => Run.ofExcept res (do
          let v ← b.get i j
          res.set (size_add i na) j v)))) (matrix.ctor_nm (size_add na nb) m)).toExcept
  else .error .assertion

/-- The function `ones(d)`. -/
def ones_d [Zero T] [One T] (d : List Nat) : Except Error (matrix T) := do
  let res ← matrix.ctor_d d
  (forCells res.dim (fun i j res => Run.ofExcept res (res.set i j 1)) res).toExcept

/-- The function `ones(n, m)`. -/
def ones [Zero T] [One T] (n m : Nat) : Except Error (matrix T) :=
  ones_d [n, m]

/-- The function `zeros(d)`. -/
def zeros_d [Zero T] (d : List Nat) : Except Error (matrix T) := do
  let res ← matrix.ctor_d d
  (forCells res.dim (fun i j res => Run.ofExcept res (res.set i j 0)) res).toExcept

/-- The function `zeros(n, m)`. -/
def zeros [Zero T] (n m : Nat) : Except Error (matrix T) :=
  zeros_d [n, m]

/-- The function `identity(n)`. -/
def identity [Zero T] [One T] (n : Nat) : Except Error (matrix T) :=
  (forRange 0 n (fun i res => Run.ofExcept res (res.set i i 1)) (matrix.ctor_nm n n)).toExcept

/-- The body of `slice` once the four bounds are resolved: the result is allocated with the
`int` differences converted to `size_t`; the counters are `size_t`, compared with the bounds
converted to `size_t`; `i - u` and `j - l` are computed in `size_t`. -/
def slice_resolved [Zero T] (self : matrix T) (u d l r : Int) : Except Error (matrix T) := do
  let h ← int_sub d u
  let w ← int_sub r l
  (forRange (size_of_int u) (size_of_int d) (fun i res =>
    forRange (size_of_int l) (size_of_int r) (fun j res => Run.ofExcept res (do
      let v ← self.get i j
      res.set (size_sub i (size_of_int u)) (size_sub j (size_of_int l)) v)) res)
    (matrix.ctor_nm (size_of_int h) (size_of_int w))).toExcept

/-- The assignments `u = u == -1 ? 0 : u` and `l = l == -1 ? 0 : l`. -/
def lower_bound (x : Int) : Int := if x = -1 then 0 else x

/-- The assignments `d = d == -1 ? dim[0] : d` and `r = r == -1 ? dim[1] : r`: the extent is
read only for the sentinel, and is converted from `size_t` to `int`. -/
def upper_bound (x : Int) (dim : List Nat) (k : Nat) : Except Error Int :=
  if x = -1 then (vec_get dim k).map int_of_size else .ok x

/-- The member `slice(int u, int d, int l, int r)`. -/
def matrix.slice [Zero T] (self : matrix T) (u d l r : Int) : Except Error (matrix T) := do
  let u := lower_bound u
  let d ← upper_bound d self.dim 0
  let l := lower_bound l
  let r ← upper_bound r self.dim 1
  slice_resolved self u d l r

/-! ## Well-formedness -/

/-- A well-formed matrix of shape `(n, m)`, invariants (I1) and (I2): `dim` is `(n, m)`,
there are `n` rows, each of `m` cells. -/
def WellFormed (A : matrix T) (n m : Nat) : Prop :=
  A.dim = [n, m] ∧ A.data.length = n ∧ ∀ row ∈ A.data, row.length = m

instance (A : matrix T) (n m : Nat) : Decidable (WellFormed A n m) :=
  inferInstanceAs (Decidable (A.dim = [n, m] ∧ A.data.length = n ∧ ∀ row ∈ A.data, row.length = m))

/-- What the C++ types guarantee of a matrix: the extents are `size_t` values and no vector
is longer than `max_size()`. -/
def Storable (A : matrix T) : Prop :=
  (∀ x ∈ A.dim, x < SIZE_MOD) ∧ A.data.length ≤ VEC_MAX ∧ ∀ row ∈ A.data, row.length ≤ VEC_MAX

instance (A : matrix T) : Decidable (Storable A) :=
  inferInstanceAs (Decidable ((∀ x ∈ A.dim, x < SIZE_MOD) ∧ A.data.length ≤ VEC_MAX ∧
    ∀ row ∈ A.data, row.length ≤ VEC_MAX))

/-- An `n x m` store that the vectors can hold: `n` rows, and rows of `m` cells if there is
a row, are within `max_size()`. -/
def Allocatable (n m : Nat) : Prop := n ≤ VEC_MAX ∧ (0 < n → m ≤ VEC_MAX)

instance (n m : Nat) : Decidable (Allocatable n m) :=
  inferInstanceAs (Decidable (n ≤ VEC_MAX ∧ (0 < n → m ≤ VEC_MAX)))

/-- The value of cell `(i, j)`, `0` outside the matrix. -/
def matrix.entry [Zero T] (A : matrix T) (i j : Nat) : T :=
  (A.data.getD i []).getD j 0

/-- An `int` value. -/
def IsInt (z : Int) : Prop := INT_MIN ≤ z ∧ z ≤ INT_MAX

instance (z : Int) : Decidable (IsInt z) :=
  inferInstanceAs (Decidable (INT_MIN ≤ z ∧ z ≤ INT_MAX))

/-- Sentinel resolution in the words of the specification: `-1` stands for the default
`dflt`, any other value for itself. -/
def resolve (x : Int) (dflt : Nat) : Int := if x = -1 then (dflt : Int) else x

/-- A piece of code that, run on any `n x m` matrix, completes, keeps the shape, stores
`F i j` in every cell `(i, j)` it targets and leaves the other cells alone. -/
def Fills [Zero T] (n m : Nat) (F : Nat → Nat → T) (Tgt : Nat → Nat → Prop)
    (run : matrix T → Run (matrix T)) : Prop :=
  ∀ s, WellFormed s n m → ∃ s', run s = .done s' ∧ WellFormed s' n m ∧
    ∀ i j, (Tgt i j → s'.entry i j = F i j) ∧ (¬ Tgt i j → s'.entry i j = s.entry i j)

/-- The operation returned a matrix. -/
def Succeeds {α : Type} (x : Except Error α) : Prop := ∃ a, x = .ok a

/-- The operation stopped on its dimensional assertion (`ShapeMismatch`). -/
def ShapeMismatch {α : Type} (x : Except Error α) : Prop := x = .error .assertion

/-- Apply `f` to the state a run ended in. -/
def Run.map {σ : Type} (f : σ → σ) : Run σ → Run σ
  | .done s => .done (f s)
  | .fault e s => .fault e (f s)

/-! ## Loops and cells: basic facts -/

theorem forLoop_inv {σ : Type} (P : Nat → σ → Prop) (body : Nat → σ → Run σ) :
    ∀ (cnt i : Nat) (s : σ), P i s →
      (∀ k s, i ≤ k → k < i + cnt → P k s → ∃ s', body k s = .done s' ∧ P (k + 1) s') →
      ∃ s', forLoop body cnt i s = .done s' ∧ P (i + cnt) s' := by
  intro cnt
  induction cnt with
  | zero => intro i s h _; exact ⟨s, rfl, by simpa using h⟩
  | succ c ih =>
    intro i s h step
    obtain ⟨s1, hb, h1⟩ := step i s (Nat.le_refl i) (by omega) h
    obtain ⟨s2, hl, h2⟩ := ih (i + 1) s1 h1 (fun k t hk hk' hp => step k t (by omega) (by omega) hp)
    refine ⟨s2, ?_, ?_⟩
    · simp only [forLoop, hb]; exact hl
    · have e : i + (c + 1) = i + 1 + c := by omega
      rw [e]; exact h2

theorem forRange_inv {σ : Type} (P : Nat → σ → Prop) (body : Nat → σ → Run σ)
    (lo hi : Nat) (hle : lo ≤ hi) (s : σ) (h0 : P lo s)
    (step : ∀ k s, lo ≤ k → k < hi → P k s → ∃ s', body k s = .done s' ∧ P (k + 1) s') :
    ∃ s', forRange lo hi body s = .done s' ∧ P hi s' := by
  obtain ⟨s', h1, h2⟩ := forLoop_inv P body (hi - lo) lo s h0
    (fun k t hk hk' hp => step k t hk (by omega) hp)
  refine ⟨s', h1, ?_⟩
  have e : lo + (hi - lo) = hi := by omega
  rw [e] at h2; exact h2

theorem forRange_empty {σ : Type} (body : Nat → σ → Run σ) (lo hi : Nat) (h : hi ≤ lo) (s : σ) :
    forRange lo hi body s = .done s := by
  have e : hi - lo = 0 := by omega
  simp [forRange, e, forLoop]

theorem WellFormed.row_length {A : matrix T} {n m : Nat} (h : WellFormed A n m) {i : Nat} (hi : i < n) :
    ∃ row, A.data[i]? = some row ∧ row.length = m := by
  obtain ⟨_, hl, hr⟩ := h
  have hi' : i < A.data.length := by omega
  exact ⟨A.data[i], List.getElem?_eq_getElem hi', hr _ (List.getElem_mem _)⟩

theorem get_of_wf [Zero T] {A : matrix T} {n m : Nat} (h : WellFormed A n m) {i j : Nat}
    (hi : i < n) (hj : j < m) : A.get i j = .ok (A.entry i j) := by
  obtain ⟨row, hrow, hlen⟩ := h.row_length hi
  have hj' : j < row.length := by omega
  simp [matrix.get, matrix.entry, hrow, List.getElem?_eq_getElem hj']

theorem set_of_wf [Zero T] {A : matrix T} {n m : Nat} (h : WellFormed A n m) {i j : Nat}
    (hi : i < n) (hj : j < m) (v : T) :
    ∃ A', A.set i j v = .ok A' ∧ WellFormed A' n m ∧
      ∀ i' j', A'.entry i' j' = if i' = i ∧ j' = j then v else A.entry i' j' := by
  obtain ⟨row, hrow, hlen⟩ := h.row_length hi
  have hj' : j < row.length := by omega
  refine ⟨{ A with data := A.data.set i (row.set j v) }, ?_, ?_, ?_⟩
  · simp [matrix.set, hrow, hj']
  · obtain ⟨hd, hl, hr⟩ := h
    refine ⟨hd, by simpa using hl, ?_⟩
    intro r hr'
    rcases List.mem_or_eq_of_mem_set hr' with h1 | h1
    · exact hr r h1
    · rw [h1]; simpa using hlen
  · intro i' j'
    simp only [matrix.entry, List.getD_eq_getElem?_getD, List.getElem?_set]
    by_cases e1 : i = i'
    · subst e1
      have : i < A.data.length := by rw [h.2.1]; exact hi
      simp only [this, if_true, Option.getD_some, true_and, List.getElem?_set]
      by_cases e2 : j = j'
      · subst e2; simp [hj']
      · have e2' : ¬ j' = j := fun h => e2 h.symm
        simp [e2, e2', hrow]
    · have e1' : ¬ i' = i := fun h => e1 h.symm
      simp [e1, e1']

theorem entry_ctor_nm [Zero T] (n m i j : Nat) : (matrix.ctor_nm n m : matrix T).entry i j = 0 := by
  simp only [matrix.entry, matrix.ctor_nm, resize_rows, vec_resize, List.getD_eq_getElem?_getD]
  simp only [List.take_nil, List.nil_append, List.length_nil, Nat.sub_zero, List.map_replicate,
    List.getElem?_replicate]
  by_cases hi : i < n
  · simp only [hi, if_true, Option.getD_some, List.getElem?_replicate]
    by_cases hj : j < m <;> simp [hj]
  · simp [hi]

theorem wf_ctor_nm [Zero T] (n m : Nat) : WellFormed (matrix.ctor_nm n m : matrix T) n m := by
  refine ⟨rfl, ?_, ?_⟩
  · simp [matrix.ctor_nm, resize_rows, vec_resize]
  · intro row hrow
    simp only [matrix.ctor_nm, resize_rows, vec_resize, List.take_nil, List.nil_append,
      List.length_nil, Nat.sub_zero, List.map_replicate] at hrow
    rw [List.eq_of_mem_replicate hrow]
    simp

theorem wf_ext [Zero T] {A B : matrix T} {n m : Nat} (hA : WellFormed A n m) (hB : WellFormed B n m)
    (h : ∀ i j, i < n → j < m → A.entry i j = B.entry i j) : A = B := by
  have hdata : A.data = B.data := by
    apply List.ext_getElem (by rw [hA.2.1, hB.2.1])
    intro i h1 h2
    have hi : i < n := by rw [← hA.2.1]; exact h1
    have la : (A.data[i]).length = m := hA.2.2 _ (List.getElem_mem _)
    have lb : (B.data[i]).length = m := hB.2.2 _ (List.getElem_mem _)
    apply List.ext_getElem (by rw [la, lb])
    intro j h3 h4
    have hj : j < m := by rw [← la]; exact h3
    have := h i j hi hj
    simpa [matrix.entry, List.getElem?_eq_getElem h1, List.getElem?_eq_getElem h2,
      List.getElem?_eq_getElem h3, List.getElem?_eq_getElem h4] using this
  cases A; cases B
  simp only [matrix.mk.injEq]
  exact ⟨hdata, hA.1.trans hB.1.symm⟩

/-! ## Code that fills cells -/

theorem Fills.set [Zero T] {n m : Nat} (F : Nat → Nat → T) {i j : Nat} (hi : i < n) (hj : j < m)
    (run : matrix T → Run (matrix T))
    (hrun : ∀ s, WellFormed s n m → run s = Run.ofExcept s (s.set i j (F i j))) :
    Fills n m F (fun i' j' => i' = i ∧ j' = j) run := by
  intro s hs
  obtain ⟨s', h1, h2, h3⟩ := set_of_wf hs hi hj (F i j)
  refine ⟨s', by rw [hrun s hs, h1]; rfl, h2, ?_⟩
  intro i' j'
  constructor
  · rintro ⟨rfl, rfl⟩; simp [h3]
  · intro hn; rw [h3, if_neg hn]

theorem Fills.forRange [Zero T] {n m : Nat} (F : Nat → Nat → T) (lo hi : Nat)
    (Tgt : Nat → Nat → Nat → Prop) (body : Nat → matrix T → Run (matrix T))
    (hbody : ∀ k, lo ≤ k → k < hi → Fills n m F (Tgt k) (body k)) :
    Fills n m F (fun i j => ∃ k, lo ≤ k ∧ k < hi ∧ Tgt k i j) (SimpleNN.forRange lo hi body) := by
  intro s hs
  by_cases hle : lo ≤ hi
  · obtain ⟨s', h1, h2, h3⟩ := forRange_inv
      (fun c t => WellFormed t n m ∧ ∀ i j,
        ((∃ k, lo ≤ k ∧ k < c ∧ Tgt k i j) → t.entry i j = F i j) ∧
        ((¬ ∃ k, lo ≤ k ∧ k < c ∧ Tgt k i j) → t.entry i j = s.entry i j))
      body lo hi hle s
      ⟨hs, fun i j => ⟨fun ⟨k, a, b, _⟩ => absurd a (by omega), fun _ => rfl⟩⟩
      (by
        rintro k t hk1 hk2 ⟨ht, hcell⟩
        obtain ⟨t', e1, e2, e3⟩ := hbody k hk1 hk2 t ht
        refine ⟨t', e1, e2, ?_⟩
        intro i j
        by_cases hT : Tgt k i j
        · exact ⟨fun _ => (e3 i j).1 hT, fun hn => absurd ⟨k, hk1, Nat.lt_succ_self k, hT⟩ hn⟩
        · rw [(e3 i j).2 hT]
          constructor
          · rintro ⟨k', a, b, c⟩
            have : k' ≠ k := fun e => hT (e ▸ c)
            exact (hcell i j).1 ⟨k', a, by omega, c⟩
          · intro hn
            exact (hcell i j).2 (fun ⟨k', a, b, c⟩ => hn ⟨k', a, by omega, c⟩))
    exact ⟨s', h1, h2, h3⟩
  · refine ⟨s, forRange_empty body lo hi (by omega) s, hs, ?_⟩
    intro i j
    exact ⟨fun ⟨k, a, b, _⟩ => absurd a (by omega), fun _ => rfl⟩

theorem Fills.seq [Zero T] {n m : Nat} (F : Nat → Nat → T) (T1 T2 : Nat → Nat → Prop)
    (r1 r2 run : matrix T → Run (matrix T))
    (h1 : Fills n m F T1 r1) (h2 : Fills n m F T2 r2)
    (hrun : ∀ s, run s = (r1 s).andThen r2) :
    Fills n m F (fun i j => T1 i j ∨ T2 i j) run := by
  intro s hs
  obtain ⟨s1, a1, a2, a3⟩ := h1 s hs
  obtain ⟨s2, b1, b2, b3⟩ := h2 s1 a2
  refine ⟨s2, by rw [hrun, a1]; exact b1, b2, ?_⟩
  intro i j
  by_cases t2 : T2 i j
  · exact ⟨fun _ => (b3 i j).1 t2, fun hn => absurd (Or.inr t2) hn⟩
  · rw [(b3 i j).2 t2]
    exact ⟨fun h => (a3 i j).1 (h.resolve_right t2), fun hn => (a3 i j).2 (fun h => hn (Or.inl h))⟩

theorem Fills.mono [Zero T] {n m : Nat} {F : Nat → Nat → T} {T1 T2 : Nat → Nat → Prop}
    {run : matrix T → Run (matrix T)} (h : Fills n m F T1 run) (hT : ∀ i j, T1 i j ↔ T2 i j) :
    Fills n m F T2 run := by
  intro s hs
  obtain ⟨s', a1, a2, a3⟩ := h s hs
  exact ⟨s', a1, a2, fun i j => ⟨fun t => (a3 i j).1 ((hT i j).2 t),
    fun t => (a3 i j).2 (fun t' => t ((hT i j).1 t'))⟩⟩

/-! ## The product loop nest -/

theorem ofExcept_ok {σ : Type} (s s' : σ) : Run.ofExcept s (Except.ok s') = Run.done s' := rfl

theorem bind_ok {α β : Type} (a : α) (f : α → Except Error β) :
    (Except.ok a >>= f) = f a := rfl

theorem vec_get_pair_0 (a b : Nat) : vec_get [a, b] 0 = .ok a := rfl

theorem vec_get_pair_1 (a b : Nat) : vec_get [a, b] 1 = .ok b := rfl

/-- The innermost loop of the product adds `A[i][k] * B[k][j]` to every cell of row `i`. -/
theorem mul_inner [CommRing T] {A B : matrix T} {n p m : Nat} (hA : WellFormed A n p)
    (hB : WellFormed B p m) {i k : Nat} (hi : i < n) (hk : k < p) (t : matrix T)
    (ht : WellFormed t n m) :
    ∃ r, forRange 0 m (fun j res => mul_step A B i k j res) t = .done r ∧ WellFormed r n m ∧
      ∀ i' j', r.entry i' j' =
        if i' = i ∧ j' < m then t.entry i' j' + A.entry i k * B.entry k j' else t.entry i' j' := by
  obtain ⟨r, h1, h2, h3⟩ := forRange_inv
    (fun c r => WellFormed r n m ∧ ∀ i' j', r.entry i' j' =
        if i' = i ∧ j' < c then t.entry i' j' + A.entry i k * B.entry k j' else t.entry i' j')
    (fun j res => mul_step A B i k j res) 0 m (Nat.zero_le m) t ⟨ht, fun i' j' => by simp⟩
    (by
      rintro j r _ hj ⟨hr, hcell⟩
      obtain ⟨r', e1, e2, e3⟩ := set_of_wf hr hi hj
        (r.entry i j + A.entry i k * B.entry k j)
      refine ⟨r', ?_, e2, ?_⟩
      · simp only [mul_step, get_of_wf hr hi hj, get_of_wf hA hi hk,
          get_of_wf hB hk hj, bind_ok, e1, ofExcept_ok]
      · intro i' j'
        rw [e3]
        by_cases c1 : i' = i ∧ j' = j
        · obtain ⟨rfl, rfl⟩ := c1
          have : ¬ (j' < j') := Nat.lt_irrefl _
          simp [hcell, this]
        · rw [if_neg c1, hcell]
          by_cases c2 : i' = i
          · have c3 : j' ≠ j := fun e => c1 ⟨c2, e⟩
            have : (j' < j + 1) ↔ (j' < j) := by omega
            simp [c2, this]
          · simp [c2])
  exact ⟨r, h1, h2, h3⟩

/-- The loop over `k` of the product adds the whole dot product to every cell of row `i`. -/
theorem mul_middle [CommRing T] {A B : matrix T} {n p m : Nat} (hA : WellFormed A n p)
    (hB : WellFormed B p m) {i : Nat} (hi : i < n) (s : matrix T) (hs : WellFormed s n m) :
    ∃ r, forRange 0 p (fun k res =>
        forRange 0 m (fun j res => mul_step A B i k j res) res) s = .done r ∧ WellFormed r n m ∧
      ∀ i' j', r.entry i' j' =
        if i' = i ∧ j' < m then
          s.entry i' j' + ∑ k in Finset.range p, A.entry i k * B.entry k j'
        else s.entry i' j' := by
  obtain ⟨r, h1, h2, h3⟩ := forRange_inv
    (fun c r => WellFormed r n m ∧ ∀ i' j', r.entry i' j' =
        if i' = i ∧ j' < m then
          s.entry i' j' + ∑ k in Finset.range c, A.entry i k * B.entry k j'
        else s.entry i' j')
    (fun k res => forRange 0 m (fun j res => mul_step A B i k j res) res) 0 p (Nat.zero_le p) s ⟨hs, fun i' j' => by simp⟩
    (by
      rintro k t _ hk ⟨ht, hcell⟩
      obtain ⟨r, e1, e2, e3⟩ := mul_inner hA hB hi hk t ht
      refine ⟨r, e1, e2, ?_⟩
      intro i' j'
      rw [e3, hcell]
      by_cases c : i' = i ∧ j' < m
      · simp only [c, and_self, if_true, Finset.sum_range_succ]
        rw [add_assoc]
      · simp only [c, if_false])
  exact ⟨r, h1, h2, h3⟩

/-- The loop nest of the product, run on the zero matrix, computes every dot product. -/
theorem mul_loops [CommRing T] {A B : matrix T} {n p m : Nat} (hA : WellFormed A n p)
    (hB : WellFormed B p m) :
    ∃ r, forRange 0 n (fun i res =>
      forRange 0 p (fun k res =>
        forRange 0 m (fun j res => mul_step A B i k j res) res) res) (matrix.ctor_nm n m) = .done r ∧ WellFormed r n m ∧
      ∀ i j, i < n → j < m →
        r.entry i j = ∑ k in Finset.range p, A.entry i k * B.entry k j := by
  obtain ⟨r, h1, h2, h3⟩ := forRange_inv
    (fun c r => WellFormed r n m ∧ ∀ i j, j < m → r.entry i j =
        if i < c then ∑ k in Finset.range p, A.entry i k * B.entry k j else 0)
    (fun i res => forRange 0 p (fun k res =>
      forRange 0 m (fun j res => mul_step A B i k j res) res) res)
    0 n (Nat.zero_le n) (matrix.ctor_nm n m)
    ⟨wf_ctor_nm n m, fun i j _ => by simp [entry_ctor_nm]⟩
    (by
      rintro i t _ hi ⟨ht, hcell⟩
      obtain ⟨r, e1, e2, e3⟩ := mul_middle hA hB hi t ht
      refine ⟨r, e1, e2, ?_⟩
      intro i' j' hj'
      rw [e3, hcell i' j' hj']
      by_cases c : i' = i
      · subst c
        simp [hj']
      · have : (i' < i + 1) ↔ (i' < i) := by omega
        simp [c, this])
  refine ⟨r, h1, h2, ?_⟩
  intro i j hi hj
  rw [h3 i j hj, if_pos hi]

theorem mul_eq [CommRing T] {A B : matrix T} {n p m : Nat} (hA : WellFormed A n p)
    (hB : WellFormed B p m) :
    ∃ C, A.mul B = .ok C ∧ WellFormed C n m ∧
      ∀ i j, i < n → j < m →
        C.entry i j = ∑ k in Finset.range p, A.entry i k * B.entry k j := by
  obtain ⟨r, h1, h2, h3⟩ := mul_loops hA hB
  refine ⟨r, ?_, h2, h3⟩
  simp only [matrix.mul, hA.1, hB.1, vec_get_pair_0, vec_get_pair_1, bind_ok, if_true, h1]
  rfl

theorem get_entry_of_wf [Zero T] {A : matrix T} {n m : Nat} (h : WellFormed A n m) {i j : Nat}
    (hi : i < n) (hj : j < m) (v : T) : A.get i j = .ok v ↔ A.entry i j = v := by
  rw [get_of_wf h hi hj]
  exact ⟨fun e => by injection e, fun e => by rw [e]⟩

theorem identity_eq [Zero T] [One T] (n : Nat) :
    ∃ I : matrix T, identity n = .ok I ∧ WellFormed I n n ∧
      ∀ i j, I.entry i j = if i = j ∧ i < n then 1 else 0 := by
  have hf : Fills n n (fun _ _ => (1 : T)) (fun i j => ∃ k, 0 ≤ k ∧ k < n ∧ (i = k ∧ j = k))
      (forRange 0 n (fun i res => Run.ofExcept res (res.set i i 1))) :=
    Fills.forRange _ 0 n (fun k i j => i = k ∧ j = k) _
      (fun k _ hk => Fills.set _ hk hk _ (fun s _ => rfl))
  obtain ⟨I, h1, h2, h3⟩ := hf (matrix.ctor_nm n n) (wf_ctor_nm n n)
  refine ⟨I, by simp only [identity, h1]; rfl, h2, ?_⟩
  intro i j
  by_cases c : i = j ∧ i < n
  · rw [if_pos c]
    exact (h3 i j).1 ⟨i, Nat.zero_le i, c.2, rfl, c.1.symm⟩
  · rw [if_neg c, (h3 i j).2, entry_ctor_nm]
    rintro ⟨k, _, hk, rfl, rfl⟩
    exact c ⟨rfl, hk⟩

theorem transpose_eq [Zero T] {A : matrix T} {n m : Nat} (hA : WellFormed A n m) :
    ∃ R, A.transpose = .ok R ∧ WellFormed R m n ∧
      ∀ i j, i < m → j < n → R.entry i j = A.entry j i := by
  have hf : Fills m n (fun i j => A.entry j i)
      (fun i j => ∃ a, 0 ≤ a ∧ a < n ∧ ∃ b, 0 ≤ b ∧ b < m ∧ (i = b ∧ j = a))
      (forRange 0 n (fun i res => forRange 0 m (fun j res => Run.ofExcept res (do
        let a ← A.get i j
        res.set j i a)) res)) :=
    Fills.forRange _ 0 n (fun a i j => ∃ b, 0 ≤ b ∧ b < m ∧ (i = b ∧ j = a)) _
      (fun a _ ha => Fills.forRange _ 0 m (fun b i j => i = b ∧ j = a) _
        (fun b _ hb => Fills.set _ hb ha _ (fun s _ => by
          simp only [get_of_wf hA ha hb, bind_ok])))
  obtain ⟨R, h1, h2, h3⟩ := hf (matrix.ctor_nm m n) (wf_ctor_nm m n)
  refine ⟨R, ?_, h2, ?_⟩
  · simp only [matrix.transpose, hA.1, vec_get_pair_0, vec_get_pair_1, bind_ok, h1]
    rfl
  · intro i j hi hj
    exact (h3 i j).1 ⟨j, Nat.zero_le j, hj, i, Nat.zero_le i, hi, rfl, rfl⟩

/-! ## Machine integers: facts -/

theorem size_of_int_natCast (n : Nat) (h : n < 2 ^ 64) : size_of_int (n : Int) = n := by
  unfold size_of_int
  omega

theorem int_of_size_small (n : Nat) (h : n < 2 ^ 31) : int_of_size n = (n : Int) := by
  unfold int_of_size
  have e : n % 2 ^ 32 = n := Nat.mod_eq_of_lt (by omega)
  rw [e, if_pos h]

theorem int_sub_natCast (a b : Nat) (hab : b ≤ a) (ha : a < 2 ^ 31) :
    int_sub (a : Int) (b : Int) = .ok (((a - b : Nat) : Int)) := by
  unfold int_sub INT_MIN INT_MAX
  rw [if_pos (by omega)]
  congr 1
  omega

theorem size_sub_eq (a b : Nat) (hab : b ≤ a) (ha : a < 2 ^ 64) : size_sub a b = a - b := by
  unfold size_sub SIZE_MOD
  omega

theorem size_add_eq (a b : Nat) (h : a + b < 2 ^ 64) : size_add a b = a + b := by
  unfold size_add SIZE_MOD
  omega

/-! ## Slice -/

/-- The loop nest of `slice` copies the rectangle `[u, d) x [l, r)` of the source. -/
theorem slice_loops [Zero T] {A : matrix T} {rows cols : Nat} (hA : WellFormed A rows cols)
    (u d l r : Nat) (hud : u ≤ d) (hd : d ≤ rows) (hlr : l ≤ r) (hr : r ≤ cols)
    (hd64 : d < 2 ^ 64) (hr64 : r < 2 ^ 64) :
    ∃ S, forRange u d (fun i res =>
        forRange l r (fun j res => Run.ofExcept res (do
          let v ← A.get i j
          res.set (size_sub i u) (size_sub j l) v)) res) (matrix.ctor_nm (d - u) (r - l))
        = .done S ∧ WellFormed S (d - u) (r - l) ∧
      ∀ i j, i < d - u → j < r - l → S.entry i j = A.entry (u + i) (l + j) := by
  have hf : Fills (d - u) (r - l) (fun i j => A.entry (u + i) (l + j))
      (fun i j => ∃ a, u ≤ a ∧ a < d ∧ ∃ b, l ≤ b ∧ b < r ∧ (i = a - u ∧ j = b - l))
      (forRange u d (fun i res =>
        forRange l r (fun j res => Run.ofExcept res (do
          let v ← A.get i j
          res.set (size_sub i u) (size_sub j l) v)) res)) :=
    Fills.forRange _ u d (fun a i j => ∃ b, l ≤ b ∧ b < r ∧ (i = a - u ∧ j = b - l)) _
      (fun a ha1 ha2 => Fills.forRange _ l r (fun b i j => i = a - u ∧ j = b - l) _
        (fun b hb1 hb2 => Fills.set _ (by omega) (by omega) _ (fun s _ => by
          have e1 : u + (a - u) = a := by omega
          have e2 : l + (b - l) = b := by omega
          simp only [get_of_wf hA (show a < rows by omega) (show b < cols by omega), bind_ok,
            size_sub_eq a u ha1 (by omega), size_sub_eq b l hb1 (by omega), e1, e2])))
  obtain ⟨S, h1, h2, h3⟩ := hf (matrix.ctor_nm (d - u) (r - l)) (wf_ctor_nm _ _)
  refine ⟨S, h1, h2, ?_⟩
  intro i j hi hj
  exact (h3 i j).1 ⟨u + i, by omega, by omega, l + j, by omega, by omega, by omega, by omega⟩

theorem slice_resolved_eq [Zero T] {A : matrix T} {rows cols : Nat}
    (hA : WellFormed A rows cols)
    (u d l r : Nat) (hud : u ≤ d) (hd : d ≤ rows) (hlr : l ≤ r) (hr : r ≤ cols)
    (hd31 : d < 2 ^ 31) (hr31 : r < 2 ^ 31) :
    ∃ S, slice_resolved A (u : Int) (d : Int) (l : Int) (r : Int) = .ok S ∧
      WellFormed S (d - u) (r - l) ∧
      ∀ i j, i < d - u → j < r - l → S.entry i j = A.entry (u + i) (l + j) := by
  obtain ⟨S, h1, h2, h3⟩ := slice_loops hA u d l r hud hd hlr hr (by omega) (by omega)
  refine ⟨S, ?_, h2, h3⟩
  simp only [slice_resolved, int_sub_natCast d u hud hd31, int_sub_natCast r l hlr hr31, bind_ok,
    size_of_int_natCast u (by omega), size_of_int_natCast d (by omega),
    size_of_int_natCast l (by omega), size_of_int_natCast r (by omega),
    size_of_int_natCast (d - u) (by omega), size_of_int_natCast (r - l) (by omega), h1]
  rfl

theorem slice_eq [Zero T] {A : matrix T} {rows cols : Nat} (hA : WellFormed A rows cols)
    (u d l r : Int) (U D L R : Nat)
    (hU : resolve u 0 = (U : Int)) (hD : resolve d rows = (D : Int))
    (hL : resolve l 0 = (L : Int)) (hR : resolve r cols = (R : Int))
    (hud : U ≤ D) (hd : D ≤ rows) (hlr : L ≤ R) (hr : R ≤ cols)
    (hd31 : D < 2 ^ 31) (hr31 : R < 2 ^ 31) :
    ∃ S, A.slice u d l r = .ok S ∧ WellFormed S (D - U) (R - L) ∧
      ∀ i j, i < D - U → j < R - L → S.entry i j = A.entry (U + i) (L + j) := by
  obtain ⟨S, h1, h2, h3⟩ := slice_resolved_eq hA U D L R hud hd hlr hr hd31 hr31
  refine ⟨S, ?_, h2, h3⟩
  have eu : lower_bound u = (U : Int) := by
    rw [← hU]; simp [resolve, lower_bound]
  have el : lower_bound l = (L : Int) := by
    rw [← hL]; simp [resolve, lower_bound]
  have ed : upper_bound d A.dim 0 = .ok (D : Int) := by
    unfold upper_bound
    by_cases c : d = -1
    · have : D = rows := by
        have := hD; simp only [resolve, c, if_true] at this; omega
      subst this
      rw [if_pos c, hA.1, vec_get_pair_0]
      show Except.ok (int_of_size D) = _
      rw [int_of_size_small D hd31]
    · have : d = (D : Int) := by
        have := hD; simp only [resolve, c, if_false] at this; exact this
      rw [if_neg c, this]
  have er : upper_bound r A.dim 1 = .ok (R : Int) := by
    unfold upper_bound
    by_cases c : r = -1
    · have : R = cols := by
        have := hR; simp only [resolve, c, if_true] at this; omega
      subst this
      rw [if_pos c, hA.1, vec_get_pair_1]
      show Except.ok (int_of_size R) = _
      rw [int_of_size_small R hr31]
    · have : r = (R : Int) := by
        have := hR; simp only [resolve, c, if_false] at this; exact this
      rw [if_neg c, this]
  simp only [matrix.slice, eu, el, ed, er, bind_ok, h1]

/-! ## Concatenation -/

theorem concate_h_eq [Zero T] {a b : matrix T} {n ma mb : Nat} (ha : WellFormed a n ma)
    (hb : WellFormed b n mb) (hsum : ma + mb < 2 ^ 64) :
    ∃ C, concate_h a b = .ok C ∧ WellFormed C n (ma + mb) ∧
      ∀ i j, i < n → (j < ma → C.entry i j = a.entry i j) ∧
        (ma ≤ j → j < ma + mb → C.entry i j = b.entry i (j - ma)) := by
  have hf : Fills n (ma + mb) (fun i j => if j < ma then a.entry i j else b.entry i (j - ma))
      (fun i' j' => ∃ i, 0 ≤ i ∧ i < n ∧
        ((∃ j, 0 ≤ j ∧ j < ma ∧ (i' = i ∧ j' = j)) ∨
         (∃ j, 0 ≤ j ∧ j < mb ∧ (i' = i ∧ j' = j + ma))))
      (forRange 0 n (fun i res =>
        (forRange 0 ma (fun j res => Run.ofExcept res (do
            let v ← a.get i j
            res.set i j v)) res).andThen
          (forRange 0 mb (fun j res => Run.ofExcept res (do
            let v ← b.get i j
            res.set i (size_add j ma) v))))) :=
    Fills.forRange _ 0 n (fun i i' j' =>
        (∃ j, 0 ≤ j ∧ j < ma ∧ (i' = i ∧ j' = j)) ∨
        (∃ j, 0 ≤ j ∧ j < mb ∧ (i' = i ∧ j' = j + ma))) _
      (fun i _ hi => Fills.seq _ _ _
        (forRange 0 ma (fun j res => Run.ofExcept res (do
            let v ← a.get i j
            res.set i j v)))
        (forRange 0 mb (fun j res => Run.ofExcept res (do
            let v ← b.get i j
            res.set i (size_add j ma) v))) _
        (Fills.forRange _ 0 ma (fun j i' j' => i' = i ∧ j' = j) _
          (fun j _ hj => Fills.set _ hi (by omega) _ (fun s _ => by
            simp only [get_of_wf ha hi hj, bind_ok, if_pos hj])))
        (Fills.forRange _ 0 mb (fun j i' j' => i' = i ∧ j' = j + ma) _
          (fun j _ hj => Fills.set _ hi (by omega) _ (fun s _ => by
            have e1 : ¬ (j + ma < ma) := by omega
            have e2 : j + ma - ma = j := by omega
            simp only [get_of_wf hb hi hj, bind_ok, size_add_eq j ma (by omega), if_neg e1,
              e2])))
        (fun s => rfl))
  obtain ⟨C, h1, h2, h3⟩ := hf (matrix.ctor_nm n (ma + mb)) (wf_ctor_nm _ _)
  refine ⟨C, ?_, h2, ?_⟩
  · simp only [concate_h, ha.1, hb.1, vec_get_pair_0, vec_get_pair_1, bind_ok, if_true,
      size_add_eq ma mb hsum, h1]
    rfl
  · intro i j hi
    constructor
    · intro hj
      rw [(h3 i j).1 ⟨i, Nat.zero_le i, hi, Or.inl ⟨j, Nat.zero_le j, hj, rfl, rfl⟩⟩]
      simp only [if_pos hj]
    · intro hj1 hj2
      have e : ¬ (j < ma) := by omega
      rw [(h3 i j).1 ⟨i, Nat.zero_le i, hi,
        Or.inr ⟨j - ma, Nat.zero_le _, by omega, rfl, by omega⟩⟩]
      simp only [if_neg e]

theorem concate_v_eq [Zero T] {a b : matrix T} {na nb m : Nat} (ha : WellFormed a na m)
    (hb : WellFormed b nb m) (hsum : na + nb < 2 ^ 64) :
    ∃ C, concate_v a b = .ok C ∧ WellFormed C (na + nb) m ∧
      ∀ i j, j < m → (i < na → C.entry i j = a.entry i j) ∧
        (na ≤ i → i < na + nb → C.entry i j = b.entry (i - na) j) := by
  have hf : Fills (na + nb) m (fun i j => if i < na then a.entry i j else b.entry (i - na) j)
      (fun i' j' => ∃ j, 0 ≤ j ∧ j < m ∧
        ((∃ i, 0 ≤ i ∧ i < na ∧ (i' = i ∧ j' = j)) ∨
         (∃ i, 0 ≤ i ∧ i < nb ∧ (i' = i + na ∧ j' = j))))
      (forRange 0 m (fun j res =>
        (forRange 0 na (fun i res => Run.ofExcept res (do
            let v ← a.get i j
            res.set i j v)) res).andThen
          (forRange 0 nb (fun i res => Run.ofExcept res (do
            let v ← b.get i j
            res.set (size_add i na) j v))))) :=
    Fills.forRange _ 0 m (fun j i' j' =>
        (∃ i, 0 ≤ i ∧ i < na ∧ (i' = i ∧ j' = j)) ∨
        (∃ i, 0 ≤ i ∧ i < nb ∧ (i' = i + na ∧ j' = j))) _
      (fun j _ hj => Fills.seq _ _ _
        (forRange 0 na (fun i res => Run.ofExcept res (do
            let v ← a.get i j
            res.set i j v)))
        (forRange 0 nb (fun i res => Run.ofExcept res (do
            let v ← b.get i j
            res.set (size_add i na) j v))) _
        (Fills.forRange _ 0 na (fun i i' j' => i' = i ∧ j' = j) _
          (fun i _ hi => Fills.set _ (by omega) hj _ (fun s _ => by
            simp only [get_of_wf ha hi hj, bind_ok, if_pos hi])))
        (Fills.forRange _ 0 nb (fun i i' j' => i' = i + na ∧ j' = j) _
          (fun i _ hi => Fills.set _ (by omega) hj _ (fun s _ => by
            have e1 : ¬ (i + na < na) := by omega
            have e2 : i + na - na = i := by omega
            simp only [get_of_wf hb hi hj, bind_ok, size_add_eq i na (by omega), if_neg e1,
              e2])))
        (fun s => rfl))
  obtain ⟨C, h1, h2, h3⟩ := hf (matrix.ctor_nm (na + nb) m) (wf_ctor_nm _ _)
  refine ⟨C, ?_, h2, ?_⟩
  · simp only [concate_v, ha.1, hb.1, vec_get_pair_0, vec_get_pair_1, bind_ok, if_true,
      size_add_eq na nb hsum, h1]
    rfl
  · intro i j hj
    constructor
    · intro hi
      rw [(h3 i j).1 ⟨j, Nat.zero_le j, hj, Or.inl ⟨i, Nat.zero_le i, hi, rfl, rfl⟩⟩]
      simp only [if_pos hi]
    · intro hi1 hi2
      have e : ¬ (i < na) := by omega
      rw [(h3 i j).1 ⟨j, Nat.zero_le j, hj,
        Or.inr ⟨i - na, Nat.zero_le _, by omega, by omega, rfl⟩⟩]
      simp only [if_neg e]

/-- With no rows, `concate_h` runs no iteration and returns the freshly allocated matrix. -/
theorem concate_h_no_rows [Zero T] {a b : matrix T} {ma mb : Nat} (ha : WellFormed a 0 ma)
    (hb : WellFormed b 0 mb) :
    concate_h a b = .ok (matrix.ctor_nm 0 (size_add ma mb)) := by
  simp only [concate_h, ha.1, hb.1, vec_get_pair_0, vec_get_pair_1, bind_ok, if_true]
  rfl

/-- In a storable matrix with at least one row, a row is no longer than `max_size()`. -/
theorem Storable.cols_le {A : matrix T} {n m : Nat} (hA : WellFormed A n m) (sA : Storable A)
    (hn : 0 < n) : m ≤ VEC_MAX := by
  obtain ⟨row, hrow, hlen⟩ := hA.row_length hn
  have hm : row ∈ A.data := List.getElem?_mem hrow
  rw [← hlen]
  exact sA.2.2 row hm

theorem Storable.rows_le {A : matrix T} {n m : Nat} (hA : WellFormed A n m) (sA : Storable A) :
    n ≤ VEC_MAX := by
  rw [← hA.2.1]
  exact sA.2.1

/-! ## Cellwise operators: facts -/

theorem ctor_d_pair [Zero T] (n m : Nat) :
    (matrix.ctor_d [n, m] : Except Error (matrix T)) = .ok (matrix.ctor_nm n m) := by
  by_cases h : n = 0
  · subst h
    simp [matrix.ctor_d, resize_data, vec_get_pair_0, Run.eval, Run.toExcept, matrix.ctor_nm,
      resize_rows, vec_resize]
  · simp [matrix.ctor_d, resize_data, vec_get_pair_0, vec_get_pair_1, Run.eval, Run.toExcept,
      matrix.ctor_nm, h]

theorem forCells_pair (n m : Nat) (body : Nat → Nat → matrix T → Run (matrix T))
    (s : matrix T) :
    forCells [n, m] body s = forRange 0 n (fun i s => forRange 0 m (fun j s => body i j s) s) s := by
  simp only [forCells, vec_get_pair_0, vec_get_pair_1, Run.eval]

theorem Fills.forCells [Zero T] {n m : Nat} (F : Nat → Nat → T)
    (body : Nat → Nat → matrix T → Run (matrix T))
    (hbody : ∀ i j, i < n → j < m → Fills n m F (fun i' j' => i' = i ∧ j' = j) (body i j)) :
    Fills n m F (fun i j => i < n ∧ j < m) (SimpleNN.forCells [n, m] body) := by
  have h : Fills n m F (fun i' j' => ∃ i, 0 ≤ i ∧ i < n ∧ ∃ j, 0 ≤ j ∧ j < m ∧ (i' = i ∧ j' = j))
      (SimpleNN.forRange 0 n (fun i s => SimpleNN.forRange 0 m (fun j s => body i j s) s)) :=
    Fills.forRange _ 0 n (fun i i' j' => ∃ j, 0 ≤ j ∧ j < m ∧ (i' = i ∧ j' = j)) _
      (fun i _ hi => Fills.forRange _ 0 m (fun j i' j' => i' = i ∧ j' = j) _
        (fun j _ hj => hbody i j hi hj))
  intro s hs
  obtain ⟨s', h1, h2, h3⟩ := h s hs
  refine ⟨s', by rw [forCells_pair]; exact h1, h2, ?_⟩
  intro i j
  constructor
  · rintro ⟨hi, hj⟩
    exact (h3 i j).1 ⟨i, Nat.zero_le i, hi, j, Nat.zero_le j, hj, rfl, rfl⟩
  · intro hn
    apply (h3 i j).2
    rintro ⟨i0, _, hi, j0, _, hj, rfl, rfl⟩
    exact hn ⟨hi, hj⟩

/-- The loop nest shared by `operator+`, `operator-` and `operator^`. -/
theorem zip_into_eq [Zero T] (op : T → T → T) {A B : matrix T} {n m : Nat}
    (hA : WellFormed A n m) (hB : WellFormed B n m) :
    ∃ C, (matrix.ctor_d A.dim >>= fun res => (zip_into op A B res).toExcept) = .ok C ∧
      WellFormed C n m ∧
      ∀ i j, i < n → j < m → C.entry i j = op (A.entry i j) (B.entry i j) := by
  have hf : Fills n m (fun i j => op (A.entry i j) (B.entry i j)) (fun i j => i < n ∧ j < m)
      (forCells [n, m] (fun i j res => Run.ofExcept res (do
        let a ← A.get i j
        let b ← B.get i j
        res.set i j (op a b)))) :=
    Fills.forCells _ _ (fun i j hi hj => Fills.set _ hi hj _ (fun s _ => by
      simp only [get_of_wf hA hi hj, get_of_wf hB hi hj, bind_ok]))
  obtain ⟨C, h1, h2, h3⟩ := hf (matrix.ctor_nm n m) (wf_ctor_nm n m)
  refine ⟨C, ?_, h2, fun i j hi hj => (h3 i j).1 ⟨hi, hj⟩⟩
  rw [hA.1, ctor_d_pair, bind_ok]
  simp only [zip_into, hA.1, h1]
  rfl

theorem add_eq [Zero T] [Add T] {A B : matrix T} {n m : Nat}
    (hA : WellFormed A n m) (hB : WellFormed B n m) :
    ∃ C, A.add B = .ok C ∧ WellFormed C n m ∧
      ∀ i j, i < n → j < m → C.entry i j = A.entry i j + B.entry i j := by
  obtain ⟨C, h1, h2, h3⟩ := zip_into_eq (fun a b => a + b) hA hB
  refine ⟨C, ?_, h2, h3⟩
  unfold matrix.add
  rw [if_pos (hA.1.trans hB.1.symm)]
  exact h1

theorem sub_eq [Zero T] [Sub T] {A B : matrix T} {n m : Nat}
    (hA : WellFormed A n m) (hB : WellFormed B n m) :
    ∃ C, A.sub B = .ok C ∧ WellFormed C n m ∧
      ∀ i j, i < n → j < m → C.entry i j = A.entry i j - B.entry i j := by
  obtain ⟨C, h1, h2, h3⟩ := zip_into_eq (fun a b => a - b) hA hB
  refine ⟨C, ?_, h2, h3⟩
  unfold matrix.sub
  rw [if_pos (hA.1.trans hB.1.symm)]
  exact h1

theorem hadamard_eq [Zero T] [Mul T] {A B : matrix T} {n m : Nat}
    (hA : WellFormed A n m) (hB : WellFormed B n m) :
    ∃ C, A.hadamard B = .ok C ∧ WellFormed C n m ∧
      ∀ i j, i < n → j < m → C.entry i j = A.entry i j * B.entry i j := by
  obtain ⟨C, h1, h2, h3⟩ := zip_into_eq (fun a b => a * b) hA hB
  refine ⟨C, ?_, h2, h3⟩
  unfold matrix.hadamard
  rw [if_pos (hA.1.trans hB.1.symm)]
  exact h1

theorem dim_ne_of_shape_ne {A B : matrix T} {n m n' m' : Nat} (hA : WellFormed A n m)
    (hB : WellFormed B n' m') (h : ¬ (n = n' ∧ m = m')) : ¬ A.dim = B.dim := by
  rw [hA.1, hB.1]
  intro e
  injection e with e1 e2
  injection e2 with e2 _
  exact h ⟨e1, e2⟩

theorem mul_mismatch [Zero T] [Add T] [Mul T] {A B : matrix T} {n m n' m' : Nat}
    (hA : WellFormed A n m) (hB : WellFormed B n' m') (h : m ≠ n') :
    A.mul B = .error .assertion := by
  simp only [matrix.mul, hA.1, hB.1, vec_get_pair_0, vec_get_pair_1, bind_ok, if_neg h]

theorem concate_h_mismatch [Zero T] {A B : matrix T} {n m n' m' : Nat}
    (hA : WellFormed A n m) (hB : WellFormed B n' m') (h : n ≠ n') :
    concate_h A B = .error .assertion := by
  simp only [concate_h, hA.1, hB.1, vec_get_pair_0, vec_get_pair_1, bind_ok, if_neg h]

theorem concate_v_mismatch [Zero T] {A B : matrix T} {n m n' m' : Nat}
    (hA : WellFormed A n m) (hB : WellFormed B n' m') (h : m ≠ m') :
    concate_v A B = .error .assertion := by
  simp only [concate_v, hA.1, hB.1, vec_get_pair_0, vec_get_pair_1, bind_ok, if_neg h]

theorem fails_iff {α : Type} (x : Except Error α) (pre : Prop) (h1 : pre → ∃ a, x = .ok a)
    (h2 : ¬ pre → x = .error .assertion) :
    (ShapeMismatch x ↔ ¬ pre) ∧ (Succeeds x ↔ pre) := by
  unfold ShapeMismatch Succeeds
  constructor
  · constructor
    · intro e hp
      obtain ⟨a, ha⟩ := h1 hp
      rw [ha] at e
      cases e
    · exact h2
  · constructor
    · rintro ⟨a, ha⟩
      by_contra hp
      rw [h2 hp] at ha
      cases ha
    · exact h1

/-! ## Loop nests over all cells -/

/-- A loop nest that stores `F i j` in every cell of a freshly constructed matrix. -/
theorem forCells_fill [Zero T] {n m : Nat} (F : Nat → Nat → T)
    (body : Nat → Nat → matrix T → Run (matrix T))
    (hbody : ∀ i j, i < n → j < m → ∀ s, WellFormed s n m →
      body i j s = Run.ofExcept s (s.set i j (F i j))) :
    ∃ C, (matrix.ctor_d [n, m] >>= fun res => (forCells [n, m] body res).toExcept) = .ok C ∧
      WellFormed C n m ∧ ∀ i j, i < n → j < m → C.entry i j = F i j := by
  have hf : Fills n m F (fun i j => i < n ∧ j < m) (forCells [n, m] body) :=
    Fills.forCells _ _ (fun i j hi hj => Fills.set _ hi hj _ (hbody i j hi hj))
  obtain ⟨C, h1, h2, h3⟩ := hf (matrix.ctor_nm n m) (wf_ctor_nm n m)
  refine ⟨C, ?_, h2, fun i j hi hj => (h3 i j).1 ⟨hi, hj⟩⟩
  rw [ctor_d_pair, bind_ok, h1]
  rfl

theorem MatrixRef.read_other (B s : matrix T) : (MatrixRef.other B).read s = B := rfl

theorem smul_eq [Zero T] [Mul T] {A : matrix T} {n m : Nat} (hA : WellFormed A n m) (k : T) :
    ∃ C, A.smul k = .ok C ∧ WellFormed C n m ∧
      ∀ i j, i < n → j < m → C.entry i j = A.entry i j * k := by
  unfold matrix.smul
  rw [hA.1]
  exact forCells_fill (fun i j => A.entry i j * k) _
    (fun i j hi hj s _ => by simp only [get_of_wf hA hi hj, bind_ok])

theorem apply_eq [Zero T] {A : matrix T} {n m : Nat} (hA : WellFormed A n m) (f : T → T) :
    ∃ C, A.apply f = .ok C ∧ WellFormed C n m ∧
      ∀ i j, i < n → j < m → C.entry i j = f (A.entry i j) := by
  unfold matrix.apply
  rw [hA.1]
  exact forCells_fill (fun i j => f (A.entry i j)) _
    (fun i j hi hj s _ => by simp only [get_of_wf hA hi hj, bind_ok])

theorem vec_resize_length {α : Type} (v : List α) (n : Nat) (fill : α) :
    (vec_resize v n fill).length = n := by
  simp only [vec_resize, List.length_append, List.length_take, List.length_replicate]
  omega

theorem vec_resize_getElem? {α : Type} (v : List α) (n : Nat) (fill : α) (i : Nat) :
    (vec_resize v n fill)[i]? = if i < n then some ((v[i]?).getD fill) else none := by
  unfold vec_resize
  by_cases hi : i < n
  · rw [if_pos hi]
    by_cases hv : i < v.length
    · rw [List.getElem?_append_left (by simp; omega), List.getElem?_take_of_lt hi,
        List.getElem?_eq_getElem hv]
      rfl
    · rw [List.getElem?_append_right (by simp; omega), List.getElem?_replicate,
        if_pos (by simp; omega), List.getElem?_eq_none (by omega)]
      rfl
  · rw [if_neg hi]
    apply List.getElem?_eq_none
    simp
    omega

/-- The two statements of `resize` on a well-formed matrix. -/
theorem resize_eq [Zero T] {A : matrix T} {n m : Nat} (hA : WellFormed A n m) (n1 m1 : Nat) :
    ∃ R, A.resize_d [n1, m1] = .done R ∧ WellFormed R n1 m1 ∧
      ∀ i j, i < n1 → j < m1 →
        R.entry i j = if i < n ∧ j < m then A.entry i j else 0 := by
  refine ⟨{ data := resize_rows (vec_resize A.data n1 []) m1, dim := [n1, m1] }, ?_, ?_, ?_⟩
  · by_cases h : n1 = 0
    · subst h
      simp [matrix.resize_d, resize_data, vec_get_pair_0, Run.eval, resize_rows, vec_resize]
    · simp [matrix.resize_d, resize_data, vec_get_pair_0, vec_get_pair_1, Run.eval, h]
  · refine ⟨rfl, ?_, ?_⟩
    · simp [resize_rows, vec_resize_length]
    · intro row hrow
      simp only [resize_rows, List.mem_map] at hrow
      obtain ⟨r0, _, rfl⟩ := hrow
      exact vec_resize_length _ _ _
  · intro i j hi hj
    simp only [matrix.entry, resize_rows, List.getD_eq_getElem?_getD, List.getElem?_map,
      vec_resize_getElem?, if_pos hi, Option.map_some', Option.getD_some, if_pos hj]
    by_cases c : i < n
    · obtain ⟨row, hrow, hlen⟩ := hA.row_length c
      simp only [hrow, Option.getD_some, c, true_and]
      by_cases c2 : j < m
      · rw [if_pos c2]
      · rw [if_neg c2, List.getElem?_eq_none (by omega)]
        rfl
    · have : A.data[i]? = none := List.getElem?_eq_none (by rw [hA.2.1]; omega)
      simp [this, c]

/-! ## Loops that stop early, loops that ignore the shape vector -/

theorem forLoop_split {σ : Type} (body : Nat → σ → Run σ) :
    ∀ (c1 c2 i : Nat) (s : σ),
      forLoop body (c1 + c2) i s = (forLoop body c1 i s).andThen (forLoop body c2 (i + c1)) := by
  intro c1
  induction c1 with
  | zero => intro c2 i s; simp [forLoop, Run.andThen]
  | succ c ih =>
    intro c2 i s
    have e : c + 1 + c2 = (c + c2) + 1 := by omega
    rw [e]
    simp only [forLoop]
    cases hb : body i s with
    | done s' =>
      simp only []
      rw [ih c2 (i + 1) s']
      have e2 : i + 1 + c = i + (c + 1) := by omega
      rw [e2]
    | fault e t => simp [Run.andThen]

/-- A loop whose iterations up to `mid` complete and whose iteration `mid` stops, stops. -/
theorem forRange_fault_at {σ : Type} (body : Nat → σ → Run σ) (lo mid hi : Nat)
    (h1 : lo ≤ mid) (h2 : mid < hi) (s s' t : σ) (e : Error)
    (hpre : forRange lo mid body s = .done s') (hmid : body mid s' = .fault e t) :
    forRange lo hi body s = .fault e t := by
  unfold forRange at *
  have e1 : hi - lo = (mid - lo) + ((hi - mid - 1) + 1) := by omega
  rw [e1, forLoop_split, hpre]
  have e2 : lo + (mid - lo) = mid := by omega
  simp only [Run.andThen, e2, forLoop, hmid]

theorem forRange_fault_first {σ : Type} (body : Nat → σ → Run σ) (lo hi : Nat)
    (h : lo < hi) (s t : σ) (e : Error) (hb : body lo s = .fault e t) :
    forRange lo hi body s = .fault e t :=
  forRange_fault_at body lo lo hi (Nat.le_refl lo) h s s t e
    (forRange_empty body lo lo (Nat.le_refl lo) s) hb

theorem Fills.congr [Zero T] {n m : Nat} {F : Nat → Nat → T} {Tgt : Nat → Nat → Prop}
    {run run' : matrix T → Run (matrix T)} (h : Fills n m F Tgt run)
    (e : ∀ s, WellFormed s n m → run' s = run s) : Fills n m F Tgt run' := by
  intro s hs
  obtain ⟨s', a1, a2, a3⟩ := h s hs
  exact ⟨s', by rw [e s hs]; exact a1, a2, a3⟩

theorem andThen_done {σ : Type} (r : Run σ) : r.andThen (fun s => .done s) = r := by
  cases r <;> rfl

theorem get_out_of_range {A : matrix T} {n m : Nat} (hA : WellFormed A n m) {i j : Nat}
    (hi : i < n) (hj : m ≤ j) : A.get i j = .error .outOfRange := by
  obtain ⟨row, hrow, hlen⟩ := hA.row_length hi
  have : row[j]? = none := List.getElem?_eq_none (by omega)
  simp [matrix.get, hrow, this]

theorem set_out_of_range {A : matrix T} {n m : Nat} (hA : WellFormed A n m) {i j : Nat}
    (hi : i < n) (hj : m ≤ j) (v : T) : A.set i j v = .error .outOfRange := by
  obtain ⟨row, hrow, hlen⟩ := hA.row_length hi
  have : ¬ (j < row.length) := by omega
  simp [matrix.set, hrow, this]

/-! ## Loops that keep a matrix well-formed -/

theorem forRange_wf {n m : Nat} (lo hi : Nat) (body : Nat → matrix T → Run (matrix T))
    (hbody : ∀ k s, lo ≤ k → k < hi → WellFormed s n m →
      ∃ s', body k s = .done s' ∧ WellFormed s' n m)
    (s : matrix T) (hs : WellFormed s n m) :
    ∃ s', forRange lo hi body s = .done s' ∧ WellFormed s' n m := by
  by_cases hle : lo ≤ hi
  · exact forRange_inv (fun _ t => WellFormed t n m) body lo hi hle s hs
      (fun k t h1 h2 ht => hbody k t h1 h2 ht)
  · exact ⟨s, forRange_empty body lo hi (by omega) s, hs⟩

/-- The product of well-formed matrices of matching shapes returns a well-formed matrix,
whatever the element type's arithmetic. -/
theorem mul_ok [Zero T] [Add T] [Mul T] {A B : matrix T} {n p m : Nat} (hA : WellFormed A n p)
    (hB : WellFormed B p m) : ∃ C, A.mul B = .ok C ∧ WellFormed C n m := by
  obtain ⟨C, h1, h2⟩ := forRange_wf (n := n) (m := m) 0 n
    (fun i res => forRange 0 p (fun k res =>
      forRange 0 m (fun j res => mul_step A B i k j res) res) res)
    (fun i s _ hi hs => forRange_wf 0 p _
      (fun k s _ hk hs => forRange_wf 0 m _
        (fun j s _ hj hs => by
          obtain ⟨s', e1, e2, _⟩ := set_of_wf hs hi hj
            (s.entry i j + A.entry i k * B.entry k j)
          refine ⟨s', ?_, e2⟩
          simp only [mul_step, get_of_wf hs hi hj, get_of_wf hA hi hk, get_of_wf hB hk hj,
            bind_ok, e1, ofExcept_ok]) s hs) s hs)
    (matrix.ctor_nm n m) (wf_ctor_nm n m)
  refine ⟨C, ?_, h2⟩
  simp only [matrix.mul, hA.1, hB.1, vec_get_pair_0, vec_get_pair_1, bind_ok, if_true, h1]
  rfl

/-- C1. Matrix product reference definition: for well-formed `A` (`n x p`) and `B` (`p x m`)
over a commutative ring, `A * B` succeeds, is well-formed of shape `(n, m)`, and its cell
`(i, j)` is the sum over `k < p` of `A[i][k] * B[k][j]`; with `p = 0` every cell is `0`. -/
theorem matrix_product_reference [CommRing T] (A B : matrix T) (n p m : Nat)
    (hA : WellFormed A n p) (hB : WellFormed B p m) :
    ∃ C, A.mul B = .ok C ∧ C.dim = [n, m] ∧ WellFormed C n m ∧
      (∀ i j, i < n → j < m →
        C.get i j = .ok (∑ k in Finset.range p, A.entry i k * B.entry k j)) ∧
      (p = 0 → ∀ i j, i < n → j < m → C.get i j = .ok 0) := by
  obtain ⟨C, h1, h2, h3⟩ := mul_eq hA hB
  refine ⟨C, h1, h2.1, h2, ?_, ?_⟩
  · intro i j hi hj
    rw [get_of_wf h2 hi hj, h3 i j hi hj]
  · intro hp i j hi hj
    rw [get_of_wf h2 hi hj, h3 i j hi hj, hp]
    simp

/-- C1, on the scenario of the specification:
`[[1,2],[3,4]] * [[5,6],[7,8]] == [[19,22],[43,50]]`. -/
theorem matrix_product_reference_witness :
    (matrix.mk [[1, 2], [3, 4]] [2, 2] : matrix Int).mul (matrix.mk [[5, 6], [7, 8]] [2, 2])
        = .ok (matrix.mk [[19, 22], [43, 50]] [2, 2]) ∧
    ∃ C, (matrix.mk [[1, 2], [3, 4]] [2, 2] : matrix Int).mul (matrix.mk [[5, 6], [7, 8]] [2, 2])
        = .ok C ∧ C.dim = [2, 2] ∧ WellFormed C 2 2 ∧
      (∀ i j, i < 2 → j < 2 →
        C.get i j = .ok (∑ k in Finset.range 2,
          (matrix.mk [[1, 2], [3, 4]] [2, 2] : matrix Int).entry i k *
          (matrix.mk [[5, 6], [7, 8]] [2, 2] : matrix Int).entry k j)) ∧
      ((2 : Nat) = 0 → ∀ i j, i < 2 → j < 2 → C.get i j = .ok 0) :=
  ⟨rfl, matrix_product_reference _ _ 2 2 2 (by decide) (by decide)⟩

/-- C2. Identity law: for a well-formed `A` of shape `(n, m)` over a commutative ring,
`A * identity(m) == A` and `identity(n) * A == A`, as equalities of matrices (shape vector
and data), also when `n = 0` or `m = 0`. -/
theorem identity_law [CommRing T] (A : matrix T) (n m : Nat) (hA : WellFormed A n m) :
    (identity m >>= fun I => A.mul I) = .ok A ∧
    (identity n >>= fun I => I.mul A) = .ok A := by
  constructor
  · obtain ⟨I, i1, i2, i3⟩ := identity_eq (T := T) m
    obtain ⟨C, c1, c2, c3⟩ := mul_eq hA i2
    rw [i1, bind_ok, c1]
    congr 1
    apply wf_ext c2 hA
    intro i j hi hj
    rw [c3 i j hi hj]
    simp only [i3]
    rw [Finset.sum_eq_single j]
    · simp [hj]
    · intro k _ hk
      simp [hk]
    · intro h
      exact absurd (Finset.mem_range.2 hj) h
  · obtain ⟨I, i1, i2, i3⟩ := identity_eq (T := T) n
    obtain ⟨C, c1, c2, c3⟩ := mul_eq i2 hA
    rw [i1, bind_ok, c1]
    congr 1
    apply wf_ext c2 hA
    intro i j hi hj
    rw [c3 i j hi hj]
    simp only [i3]
    rw [Finset.sum_eq_single i]
    · simp [hi]
    · intro k _ hk
      have : ¬ (i = k ∧ i < n) := fun h => hk h.1.symm
      simp [this]
    · intro h
      exact absurd (Finset.mem_range.2 hi) h

/-- C2, on the scenario of the specification:
`identity(3) * [[1,2],[3,4],[5,6]] == [[1,2],[3,4],[5,6]]`. -/
theorem identity_law_witness :
    WellFormed (matrix.mk [[1, 2], [3, 4], [5, 6]] [3, 2] : matrix Int) 3 2 ∧
    ((identity 2 >>= fun I => (matrix.mk [[1, 2], [3, 4], [5, 6]] [3, 2] : matrix Int).mul I)
        = .ok (matrix.mk [[1, 2], [3, 4], [5, 6]] [3, 2]) ∧
     (identity 3 >>= fun I => I.mul (matrix.mk [[1, 2], [3, 4], [5, 6]] [3, 2] : matrix Int))
        = .ok (matrix.mk [[1, 2], [3, 4], [5, 6]] [3, 2])) :=
  ⟨by decide, identity_law _ 3 2 (by decide)⟩

/-- C3. Associativity of the matrix product: for well-formed `A` (`n x p`), `B` (`p x q`),
`C` (`q x m`) over a commutative ring, `(A * B) * C` and `A * (B * C)` both succeed and are
the same matrix. -/
theorem mul_assoc_law [CommRing T] (A B C : matrix T) (n p q m : Nat)
    (hA : WellFormed A n p) (hB : WellFormed B p q) (hC : WellFormed C q m) :
    ∃ R, (A.mul B >>= fun AB => AB.mul C) = .ok R ∧
      (B.mul C >>= fun BC => A.mul BC) = .ok R ∧ WellFormed R n m := by
  obtain ⟨AB, a1, a2, a3⟩ := mul_eq hA hB
  obtain ⟨BC, b1, b2, b3⟩ := mul_eq hB hC
  obtain ⟨L, l1, l2, l3⟩ := mul_eq a2 hC
  obtain ⟨R, r1, r2, r3⟩ := mul_eq hA b2
  refine ⟨L, by rw [a1, bind_ok, l1], ?_, l2⟩
  rw [b1, bind_ok, r1]
  congr 1
  apply wf_ext r2 l2
  intro i j hi hj
  rw [r3 i j hi hj, l3 i j hi hj]
  have e1 : ∀ k ∈ Finset.range p, A.entry i k * BC.entry k j =
      ∑ l in Finset.range q, A.entry i k * B.entry k l * C.entry l j := by
    intro k hk
    rw [b3 k j (Finset.mem_range.1 hk) hj, Finset.mul_sum]
    exact Finset.sum_congr rfl (fun l _ => (mul_assoc _ _ _).symm)
  have e2 : ∀ l ∈ Finset.range q, AB.entry i l * C.entry l j =
      ∑ k in Finset.range p, A.entry i k * B.entry k l * C.entry l j := by
    intro l hl
    rw [a3 i l hi (Finset.mem_range.1 hl), Finset.sum_mul]
  rw [Finset.sum_congr rfl e1, Finset.sum_congr rfl e2, Finset.sum_comm]

/-- C3 on concrete matrices. -/
theorem mul_assoc_law_witness :
    WellFormed (matrix.mk [[1, 2]] [1, 2] : matrix Int) 1 2 ∧
    WellFormed (matrix.mk [[3], [4]] [2, 1] : matrix Int) 2 1 ∧
    WellFormed (matrix.mk [[5, 6, 7]] [1, 3] : matrix Int) 1 3 ∧
    ∃ R, ((matrix.mk [[1, 2]] [1, 2] : matrix Int).mul (matrix.mk [[3], [4]] [2, 1])
          >>= fun AB => AB.mul (matrix.mk [[5, 6, 7]] [1, 3])) = .ok R ∧
      ((matrix.mk [[3], [4]] [2, 1] : matrix Int).mul (matrix.mk [[5, 6, 7]] [1, 3])
          >>= fun BC => (matrix.mk [[1, 2]] [1, 2] : matrix Int).mul BC) = .ok R ∧
      WellFormed R 1 3 :=
  ⟨by decide, by decide, by decide, mul_assoc_law _ _ _ 1 2 1 3 (by decide) (by decide)
    (by decide)⟩

/-- C4. Transpose of a product: for well-formed `A` (`n x p`) and `B` (`p x m`) over a
commutative ring, `(A * B).transpose()` and `B.transpose() * A.transpose()` both succeed
and are the same matrix, of shape `(m, n)`. -/
theorem transpose_mul_law [CommRing T] (A B : matrix T) (n p m : Nat)
    (hA : WellFormed A n p) (hB : WellFormed B p m) :
    ∃ R, (A.mul B >>= fun AB => AB.transpose) = .ok R ∧
      (B.transpose >>= fun Bt => A.transpose >>= fun At => Bt.mul At) = .ok R ∧
      R.dim = [m, n] ∧ WellFormed R m n := by
  obtain ⟨AB, a1, a2, a3⟩ := mul_eq hA hB
  obtain ⟨L, l1, l2, l3⟩ := transpose_eq a2
  obtain ⟨Bt, b1, b2, b3⟩ := transpose_eq hB
  obtain ⟨At, t1, t2, t3⟩ := transpose_eq hA
  obtain ⟨R, r1, r2, r3⟩ := mul_eq b2 t2
  refine ⟨L, by rw [a1, bind_ok, l1], ?_, l2.1, l2⟩
  rw [b1, bind_ok, t1, bind_ok, r1]
  congr 1
  apply wf_ext r2 l2
  intro i j hi hj
  rw [r3 i j hi hj, l3 i j hi hj, a3 j i hj hi]
  apply Finset.sum_congr rfl
  intro k hk
  rw [b3 i k hi (Finset.mem_range.1 hk), t3 k j (Finset.mem_range.1 hk) hj, mul_comm]

/-- C4 on concrete matrices. -/
theorem transpose_mul_law_witness :
    WellFormed (matrix.mk [[1, 2], [3, 4]] [2, 2] : matrix Int) 2 2 ∧
    WellFormed (matrix.mk [[5, 6, 7], [8, 9, 10]] [2, 3] : matrix Int) 2 3 ∧
    ∃ R, ((matrix.mk [[1, 2], [3, 4]] [2, 2] : matrix Int).mul
            (matrix.mk [[5, 6, 7], [8, 9, 10]] [2, 3]) >>= fun AB => AB.transpose) = .ok R ∧
      ((matrix.mk [[5, 6, 7], [8, 9, 10]] [2, 3] : matrix Int).transpose >>= fun Bt =>
        (matrix.mk [[1, 2], [3, 4]] [2, 2] : matrix Int).transpose >>= fun At => Bt.mul At)
          = .ok R ∧
      R.dim = [3, 2] ∧ WellFormed R 3 2 :=
  ⟨by decide, by decide, transpose_mul_law _ _ 2 2 3 (by decide) (by decide)⟩

/-! ## C5 - C7: slice -/

/-- C5 (amended). Slice round-trip: for a well-formed `A` of shape `(rows, cols)` and `int`
bounds `(u, d, l, r)` whose resolved values (`-1` replaced by `0`, `rows`, `0`, `cols`)
satisfy `0 <= u <= d <= rows`, `0 <= l <= r <= cols` and, in addition, `d <= INT_MAX` and
`r <= INT_MAX`, `A.slice(u, d, l, r)` succeeds (so no read of `A` is out of range), has shape
`(d - u, r - l)`, and its cell `(i, j)` is the cell `(u + i, l + j)` of `A`, which exists. -/
theorem slice_round_trip [Zero T] (A : matrix T) (rows cols : Nat) (u d l r : Int)
    (hA : WellFormed A rows cols)
    (hu : 0 ≤ resolve u 0) (hud : resolve u 0 ≤ resolve d rows) (hd : resolve d rows ≤ rows)
    (hl : 0 ≤ resolve l 0) (hlr : resolve l 0 ≤ resolve r cols) (hr : resolve r cols ≤ cols)
    (hdmax : resolve d rows ≤ INT_MAX) (hrmax : resolve r cols ≤ INT_MAX) :
    ∃ S, A.slice u d l r = .ok S ∧
      S.dim = [(resolve d rows - resolve u 0).toNat, (resolve r cols - resolve l 0).toNat] ∧
      WellFormed S (resolve d rows - resolve u 0).toNat (resolve r cols - resolve l 0).toNat ∧
      ∀ i j, i < (resolve d rows - resolve u 0).toNat →
        j < (resolve r cols - resolve l 0).toNat →
        S.get i j = .ok (A.entry ((resolve u 0).toNat + i) ((resolve l 0).toNat + j)) ∧
        A.get ((resolve u 0).toNat + i) ((resolve l 0).toNat + j)
          = .ok (A.entry ((resolve u 0).toNat + i) ((resolve l 0).toNat + j)) := by
  obtain ⟨U, hU⟩ := Int.eq_ofNat_of_zero_le hu
  obtain ⟨D, hD⟩ := Int.eq_ofNat_of_zero_le (le_trans hu hud)
  obtain ⟨L, hL⟩ := Int.eq_ofNat_of_zero_le hl
  obtain ⟨R, hR⟩ := Int.eq_ofNat_of_zero_le (le_trans hl hlr)
  rw [hU, hD] at hud
  rw [hD] at hd hdmax
  rw [hL, hR] at hlr
  rw [hR] at hr hrmax
  unfold INT_MAX at hdmax hrmax
  obtain ⟨S, h1, h2, h3⟩ := slice_eq hA u d l r U D L R hU hD hL hR (by omega) (by omega)
    (by omega) (by omega) (by omega) (by omega)
  have eh : ((D : Int) - (U : Int)).toNat = D - U := by omega
  have ew : ((R : Int) - (L : Int)).toNat = R - L := by omega
  rw [hU, hD, hL, hR, eh, ew]
  refine ⟨S, h1, h2.1, h2, ?_⟩
  intro i j hi hj
  simp only [Int.toNat_ofNat]
  exact ⟨by rw [get_of_wf h2 hi hj, h3 i j hi hj],
    get_of_wf hA (by omega) (by omega)⟩

/-- C5, on the scenario of the specification:
`[[1,2,3],[4,5,6]].slice(0,2,1,3) == [[2,3],[5,6]]`. -/
theorem slice_round_trip_witness :
    (matrix.mk [[1, 2, 3], [4, 5, 6]] [2, 3] : matrix Int).slice 0 2 1 3
        = .ok (matrix.mk [[2, 3], [5, 6]] [2, 2]) ∧
    WellFormed (matrix.mk [[1, 2, 3], [4, 5, 6]] [2, 3] : matrix Int) 2 3 ∧
    ∃ S, (matrix.mk [[1, 2, 3], [4, 5, 6]] [2, 3] : matrix Int).slice 0 2 1 3 = .ok S ∧
      S.dim = [(resolve 2 2 - resolve 0 0).toNat, (resolve 3 3 - resolve 1 0).toNat] ∧
      WellFormed S (resolve 2 2 - resolve 0 0).toNat (resolve 3 3 - resolve 1 0).toNat ∧
      ∀ i j, i < (resolve 2 2 - resolve 0 0).toNat →
        j < (resolve 3 3 - resolve 1 0).toNat →
        S.get i j = .ok ((matrix.mk [[1, 2, 3], [4, 5, 6]] [2, 3] : matrix Int).entry
          ((resolve 0 0).toNat + i) ((resolve 1 0).toNat + j)) ∧
        (matrix.mk [[1, 2, 3], [4, 5, 6]] [2, 3] : matrix Int).get
          ((resolve 0 0).toNat + i) ((resolve 1 0).toNat + j)
          = .ok ((matrix.mk [[1, 2, 3], [4, 5, 6]] [2, 3] : matrix Int).entry
            ((resolve 0 0).toNat + i) ((resolve 1 0).toNat + j)) :=
  ⟨rfl, by decide, slice_round_trip _ 2 3 0 2 1 3 (by decide) (by decide) (by decide)
    (by decide) (by decide) (by decide) (by decide) (by decide) (by decide)⟩

/-- C5 as stated fails: `matrix<T>(0, 2147483648)` is well-formed and storable, the `int`
bounds `(0, 0, 0, -1)` resolve to `0 <= 0 <= 0 <= 0` and `0 <= 0 <= 2147483648 <= 2147483648`,
yet the slice has `dim == {0, 18446744071562067968}`, not `{0, 2147483648}`: the defaulted
`r` is `dim[1]` converted to `int`, which is `-2147483648`. -/
theorem slice_round_trip_counterexample :
    WellFormed (matrix.ctor_nm 0 2147483648 : matrix Int) 0 2147483648 ∧
    Storable (matrix.ctor_nm 0 2147483648 : matrix Int) ∧
    (IsInt 0 ∧ IsInt (-1)) ∧
    (0 ≤ resolve 0 0 ∧ resolve 0 0 ≤ resolve 0 0 ∧ resolve 0 0 ≤ ((0 : Nat) : Int)) ∧
    (0 ≤ resolve 0 0 ∧ resolve 0 0 ≤ resolve (-1) 2147483648 ∧
      resolve (-1) 2147483648 ≤ ((2147483648 : Nat) : Int)) ∧
    (matrix.ctor_nm 0 2147483648 : matrix Int).slice 0 0 0 (-1)
        = .ok (matrix.mk [] [0, 18446744071562067968]) ∧
    ¬ ∃ S, (matrix.ctor_nm 0 2147483648 : matrix Int).slice 0 0 0 (-1) = .ok S ∧
      S.dim = [(resolve 0 0 - resolve 0 0).toNat, (resolve (-1) 2147483648 - resolve 0 0).toNat] := by
  refine ⟨by decide, by decide, by decide, by decide, by decide, rfl, ?_⟩
  rintro ⟨S, h1, h2⟩
  have e : (matrix.ctor_nm 0 2147483648 : matrix Int).slice 0 0 0 (-1)
      = .ok (matrix.mk [] [0, 18446744071562067968]) := rfl
  rw [e] at h1
  injection h1 with h1
  subst h1
  revert h2
  decide

/-- C6 (amended). Sentinel defaults: for a well-formed `A` whose two extents are at most
`INT_MAX` (zero extents included), `A.slice(-1, -1, -1, -1)` succeeds and is `A`, shape vector
and data. -/
theorem slice_sentinel_defaults [Zero T] (A : matrix T) (rows cols : Nat)
    (hA : WellFormed A rows cols) (hrows : (rows : Int) ≤ INT_MAX)
    (hcols : (cols : Int) ≤ INT_MAX) :
    A.slice (-1) (-1) (-1) (-1) = .ok A := by
  unfold INT_MAX at hrows hcols
  obtain ⟨S, h1, h2, h3⟩ := slice_eq hA (-1) (-1) (-1) (-1) 0 rows 0 cols
    (by simp [resolve]) (by simp [resolve]) (by simp [resolve]) (by simp [resolve])
    (Nat.zero_le _) (Nat.le_refl _) (Nat.zero_le _) (Nat.le_refl _) (by omega) (by omega)
  rw [h1]
  congr 1
  apply wf_ext h2 hA
  intro i j hi hj
  rw [h3 i j hi hj, Nat.zero_add, Nat.zero_add]

/-- C6 on a concrete matrix, and on an empty one. -/
theorem slice_sentinel_defaults_witness :
    (WellFormed (matrix.mk [[1, 2, 3], [4, 5, 6]] [2, 3] : matrix Int) 2 3 ∧
      (matrix.mk [[1, 2, 3], [4, 5, 6]] [2, 3] : matrix Int).slice (-1) (-1) (-1) (-1)
        = .ok (matrix.mk [[1, 2, 3], [4, 5, 6]] [2, 3])) ∧
    (matrix.mk [] [0, 7] : matrix Int).slice (-1) (-1) (-1) (-1) = .ok (matrix.mk [] [0, 7]) :=
  ⟨⟨by decide, slice_sentinel_defaults _ 2 3 (by decide) (by decide) (by decide)⟩, rfl⟩

/-- C6 as stated fails: `matrix<T>(0, 4294967296)` is well-formed and storable, and its
slice with four sentinels has `dim == {0, 0}`: `dim[1]` converted to `int` is `0`. -/
theorem slice_sentinel_defaults_counterexample :
    WellFormed (matrix.ctor_nm 0 4294967296 : matrix Int) 0 4294967296 ∧
    Storable (matrix.ctor_nm 0 4294967296 : matrix Int) ∧
    (matrix.ctor_nm 0 4294967296 : matrix Int).slice (-1) (-1) (-1) (-1)
        = .ok (matrix.mk [] [0, 0]) ∧
    (matrix.ctor_nm 0 4294967296 : matrix Int).slice (-1) (-1) (-1) (-1)
        ≠ .ok (matrix.ctor_nm 0 4294967296) := by
  refine ⟨by decide, by decide, rfl, ?_⟩
  intro h
  have e : (matrix.ctor_nm 0 4294967296 : matrix Int).slice (-1) (-1) (-1) (-1)
      = .ok (matrix.mk [] [0, 0]) := rfl
  rw [e] at h
  injection h with h
  revert h
  decide

/-- C7 (amended). Concatenation inverts slicing: for a well-formed `A` of shape
`(rows, cols)` whose two extents are at most `INT_MAX`, and every `int` `k`: if
`0 <= k <= cols` then `concate_h(A.slice(-1,-1,0,k), A.slice(-1,-1,k,-1))` succeeds and is
`A`; if `0 <= k <= rows` then `concate_v(A.slice(0,k,-1,-1), A.slice(k,-1,-1,-1))` succeeds
and is `A` (shape vector and data). -/
theorem concat_inverts_slice [Zero T] (A : matrix T) (rows cols : Nat) (k : Int)
    (hA : WellFormed A rows cols) (hrows : (rows : Int) ≤ INT_MAX)
    (hcols : (cols : Int) ≤ INT_MAX) :
    (0 ≤ k → k ≤ cols →
      (A.slice (-1) (-1) 0 k >>= fun X => A.slice (-1) (-1) k (-1) >>= fun Y => concate_h X Y)
        = .ok A) ∧
    (0 ≤ k → k ≤ rows →
      (A.slice 0 k (-1) (-1) >>= fun X => A.slice k (-1) (-1) (-1) >>= fun Y => concate_v X Y)
        = .ok A) := by
  unfold INT_MAX at hrows hcols
  constructor
  · intro hk0 hk1
    obtain ⟨K, rfl⟩ := Int.eq_ofNat_of_zero_le hk0
    have hK : K ≤ cols := by omega
    have rK : resolve (K : Int) cols = (K : Int) := by
      unfold resolve; rw [if_neg (by omega)]
    have rK0 : resolve (K : Int) 0 = (K : Int) := by
      unfold resolve; rw [if_neg (by omega)]
    obtain ⟨X, x1, x2, x3⟩ := slice_eq hA (-1) (-1) 0 (K : Int) 0 rows 0 K
      (by simp [resolve]) (by simp [resolve]) (by simp [resolve]) rK
      (Nat.zero_le _) (Nat.le_refl _) (Nat.zero_le _) hK (by omega) (by omega)
    obtain ⟨Y, y1, y2, y3⟩ := slice_eq hA (-1) (-1) (K : Int) (-1) 0 rows K cols
      (by simp [resolve]) (by simp [resolve]) rK0 (by simp [resolve])
      (Nat.zero_le _) (Nat.le_refl _) hK (Nat.le_refl _) (by omega) (by omega)
    obtain ⟨C, c1, c2, c3⟩ := concate_h_eq x2 y2 (by omega)
    rw [x1, bind_ok, y1, bind_ok, c1]
    congr 1
    have e : K - 0 + (cols - K) = cols := by omega
    rw [e] at c2
    apply wf_ext c2 hA
    intro i j hi hj
    by_cases c : j < K - 0
    · rw [(c3 i j hi).1 c, x3 i j hi c, Nat.zero_add, Nat.zero_add]
    · rw [(c3 i j hi).2 (by omega) (by omega), y3 i (j - (K - 0)) hi (by omega), Nat.zero_add]
      congr 1
      omega
  · intro hk0 hk1
    obtain ⟨K, rfl⟩ := Int.eq_ofNat_of_zero_le hk0
    have hK : K ≤ rows := by omega
    have rK : resolve (K : Int) rows = (K : Int) := by
      unfold resolve; rw [if_neg (by omega)]
    have rK0 : resolve (K : Int) 0 = (K : Int) := by
      unfold resolve; rw [if_neg (by omega)]
    obtain ⟨X, x1, x2, x3⟩ := slice_eq hA 0 (K : Int) (-1) (-1) 0 K 0 cols
      (by simp [resolve]) rK (by simp [resolve]) (by simp [resolve])
      (Nat.zero_le _) hK (Nat.zero_le _) (Nat.le_refl _) (by omega) (by omega)
    obtain ⟨Y, y1, y2, y3⟩ := slice_eq hA (K : Int) (-1) (-1) (-1) K rows 0 cols
      rK0 (by simp [resolve]) (by simp [resolve]) (by simp [resolve])
      hK (Nat.le_refl _) (Nat.zero_le _) (Nat.le_refl _) (by omega) (by omega)
    obtain ⟨C, c1, c2, c3⟩ := concate_v_eq x2 y2 (by omega)
    rw [x1, bind_ok, y1, bind_ok, c1]
    congr 1
    have e : K - 0 + (rows - K) = rows := by omega
    rw [e] at c2
    apply wf_ext c2 hA
    intro i j hi hj
    by_cases c : i < K - 0
    · rw [(c3 i j hj).1 c, x3 i j c hj, Nat.zero_add, Nat.zero_add]
    · rw [(c3 i j hj).2 (by omega) (by omega), y3 (i - (K - 0)) j (by omega) hj, Nat.zero_add]
      congr 1
      omega

/-- C7 on a concrete matrix, split after its first column and after its first row. -/
theorem concat_inverts_slice_witness :
    WellFormed (matrix.mk [[1, 2, 3], [4, 5, 6]] [2, 3] : matrix Int) 2 3 ∧
    ((0 : Int) ≤ 1 → (1 : Int) ≤ ((3 : Nat) : Int) →
      ((matrix.mk [[1, 2, 3], [4, 5, 6]] [2, 3] : matrix Int).slice (-1) (-1) 0 1 >>= fun X =>
        (matrix.mk [[1, 2, 3], [4, 5, 6]] [2, 3] : matrix Int).slice (-1) (-1) 1 (-1) >>= fun Y =>
        concate_h X Y) = .ok (matrix.mk [[1, 2, 3], [4, 5, 6]] [2, 3])) ∧
    ((0 : Int) ≤ 1 → (1 : Int) ≤ ((2 : Nat) : Int) →
      ((matrix.mk [[1, 2, 3], [4, 5, 6]] [2, 3] : matrix Int).slice 0 1 (-1) (-1) >>= fun X =>
        (matrix.mk [[1, 2, 3], [4, 5, 6]] [2, 3] : matrix Int).slice 1 (-1) (-1) (-1) >>= fun Y =>
        concate_v X Y) = .ok (matrix.mk [[1, 2, 3], [4, 5, 6]] [2, 3])) :=
  ⟨by decide, concat_inverts_slice _ 2 3 1 (by decide) (by decide) (by decide)⟩

/-- C7 as stated fails: for the well-formed, storable `matrix<T>(0, 2147483648)` and `k = 0`,
the two slices are `0 x 0` and `0 x 18446744071562067968`, and their horizontal
concatenation has `dim == {0, 18446744071562067968}`, which is not the source. -/
theorem concat_inverts_slice_counterexample :
    WellFormed (matrix.ctor_nm 0 2147483648 : matrix Int) 0 2147483648 ∧
    Storable (matrix.ctor_nm 0 2147483648 : matrix Int) ∧
    ((0 : Int) ≤ 0 ∧ (0 : Int) ≤ ((2147483648 : Nat) : Int)) ∧
    ((matrix.ctor_nm 0 2147483648 : matrix Int).slice (-1) (-1) 0 0 >>= fun X =>
      (matrix.ctor_nm 0 2147483648 : matrix Int).slice (-1) (-1) 0 (-1) >>= fun Y =>
      concate_h X Y) = .ok (matrix.mk [] [0, 18446744071562067968]) ∧
    ((matrix.ctor_nm 0 2147483648 : matrix Int).slice (-1) (-1) 0 0 >>= fun X =>
      (matrix.ctor_nm 0 2147483648 : matrix Int).slice (-1) (-1) 0 (-1) >>= fun Y =>
      concate_h X Y) ≠ .ok (matrix.ctor_nm 0 2147483648) := by
  refine ⟨by decide, by decide, by decide, rfl, ?_⟩
  intro h
  have e : ((matrix.ctor_nm 0 2147483648 : matrix Int).slice (-1) (-1) 0 0 >>= fun X =>
      (matrix.ctor_nm 0 2147483648 : matrix Int).slice (-1) (-1) 0 (-1) >>= fun Y =>
      concate_h X Y) = .ok (matrix.mk [] [0, 18446744071562067968]) := rfl
  rw [e] at h
  injection h with h
  revert h
  decide

/-! ## C8: concatenation layout -/

/-- C8 (amended). Concatenation layout: for well-formed, storable `A`, `B` with the same
number `n` of rows, provided `A.cols + B.cols` is a `size_t` value when `n = 0` (it always is
when `n > 0`), `concate_h(A, B)` succeeds with shape `(n, A.cols + B.cols)`, cell `(i, j)`
being `A[i][j]` for `j < A.cols` and `B[i][j - A.cols]` for `A.cols <= j`; for well-formed,
storable `A`, `B` with the same number `m` of columns, `concate_v(A, B)` succeeds with shape
`(A.rows + B.rows, m)`, cell `(i, j)` being `A[i][j]` for `i < A.rows` and
`B[i - A.rows][j]` for `A.rows <= i`. -/
theorem concat_layout [Zero T] (A B : matrix T) (n ma mb : Nat)
    (sA : Storable A) (sB : Storable B) :
    (WellFormed A n ma → WellFormed B n mb → (n = 0 → ma + mb < SIZE_MOD) →
      ∃ C, concate_h A B = .ok C ∧ C.dim = [n, ma + mb] ∧ WellFormed C n (ma + mb) ∧
        ∀ i j, i < n → (j < ma → C.get i j = .ok (A.entry i j)) ∧
          (ma ≤ j → j < ma + mb → C.get i j = .ok (B.entry i (j - ma)))) ∧
    (WellFormed A ma n → WellFormed B mb n →
      ∃ C, concate_v A B = .ok C ∧ C.dim = [ma + mb, n] ∧ WellFormed C (ma + mb) n ∧
        ∀ i j, j < n → (i < ma → C.get i j = .ok (A.entry i j)) ∧
          (ma ≤ i → i < ma + mb → C.get i j = .ok (B.entry (i - ma) j))) := by
  constructor
  · intro hA hB hsum
    have hlt : ma + mb < 2 ^ 64 := by
      by_cases hn : n = 0
      · exact hsum hn
      · have h1 := Storable.cols_le hA sA (by omega)
        have h2 := Storable.cols_le hB sB (by omega)
        unfold VEC_MAX at h1 h2
        omega
    obtain ⟨C, c1, c2, c3⟩ := concate_h_eq hA hB hlt
    refine ⟨C, c1, c2.1, c2, ?_⟩
    intro i j hi
    constructor
    · intro hj
      rw [get_of_wf c2 hi (by omega), (c3 i j hi).1 hj]
    · intro hj1 hj2
      rw [get_of_wf c2 hi hj2, (c3 i j hi).2 hj1 hj2]
  · intro hA hB
    have hlt : ma + mb < 2 ^ 64 := by
      have h1 := Storable.rows_le hA sA
      have h2 := Storable.rows_le hB sB
      unfold VEC_MAX at h1 h2
      omega
    obtain ⟨C, c1, c2, c3⟩ := concate_v_eq hA hB hlt
    refine ⟨C, c1, c2.1, c2, ?_⟩
    intro i j hj
    constructor
    · intro hi
      rw [get_of_wf c2 (by omega) hj, (c3 i j hj).1 hi]
    · intro hi1 hi2
      rw [get_of_wf c2 hi2 hj, (c3 i j hj).2 hi1 hi2]

/-- C8, on the scenario of the specification:
`concate_h([[1],[2]], [[3,4],[5,6]]) == [[1,3,4],[2,5,6]]` and
`concate_v([[1,2]], [[3,4],[5,6]]) == [[1,2],[3,4],[5,6]]`. -/
theorem concat_layout_witness :
    concate_h (matrix.mk [[1], [2]] [2, 1] : matrix Int) (matrix.mk [[3, 4], [5, 6]] [2, 2])
        = .ok (matrix.mk [[1, 3, 4], [2, 5, 6]] [2, 3]) ∧
    concate_v (matrix.mk [[1, 2]] [1, 2] : matrix Int) (matrix.mk [[3, 4], [5, 6]] [2, 2])
        = .ok (matrix.mk [[1, 2], [3, 4], [5, 6]] [3, 2]) ∧
    (∃ C, concate_h (matrix.mk [[1], [2]] [2, 1] : matrix Int)
          (matrix.mk [[3, 4], [5, 6]] [2, 2]) = .ok C ∧
        C.dim = [2, 1 + 2] ∧ WellFormed C 2 (1 + 2) ∧
        ∀ i j, i < 2 →
          (j < 1 → C.get i j = .ok ((matrix.mk [[1], [2]] [2, 1] : matrix Int).entry i j)) ∧
          (1 ≤ j → j < 1 + 2 →
            C.get i j = .ok ((matrix.mk [[3, 4], [5, 6]] [2, 2] : matrix Int).entry i (j - 1)))) ∧
    (∃ C, concate_v (matrix.mk [[1, 2]] [1, 2] : matrix Int)
          (matrix.mk [[3, 4], [5, 6]] [2, 2]) = .ok C ∧
        C.dim = [1 + 2, 2] ∧ WellFormed C (1 + 2) 2 ∧
        ∀ i j, j < 2 →
          (i < 1 → C.get i j = .ok ((matrix.mk [[1, 2]] [1, 2] : matrix Int).entry i j)) ∧
          (1 ≤ i → i < 1 + 2 →
            C.get i j = .ok ((matrix.mk [[3, 4], [5, 6]] [2, 2] : matrix Int).entry (i - 1) j))) :=
  ⟨rfl, rfl,
    (concat_layout (matrix.mk [[1], [2]] [2, 1] : matrix Int) (matrix.mk [[3, 4], [5, 6]] [2, 2])
      2 1 2 (by decide) (by decide)).1 (by decide) (by decide) (by decide),
    (concat_layout (matrix.mk [[1, 2]] [1, 2] : matrix Int) (matrix.mk [[3, 4], [5, 6]] [2, 2])
      2 1 2 (by decide) (by decide)).2 (by decide) (by decide)⟩

/-- C8 as stated fails: two copies of the well-formed, storable
`matrix<T>(0, 9223372036854775808)` have the same number of rows, and `concate_h` returns a
matrix with `dim == {0, 0}`, not `{0, 18446744073709551616}`: the sum of the two column
counts is computed in `size_t`. -/
theorem concat_layout_counterexample :
    WellFormed (matrix.ctor_nm 0 9223372036854775808 : matrix Int) 0 9223372036854775808 ∧
    Storable (matrix.ctor_nm 0 9223372036854775808 : matrix Int) ∧
    concate_h (matrix.ctor_nm 0 9223372036854775808 : matrix Int)
        (matrix.ctor_nm 0 9223372036854775808) = .ok (matrix.mk [] [0, 0]) ∧
    ¬ ∃ C, concate_h (matrix.ctor_nm 0 9223372036854775808 : matrix Int)
        (matrix.ctor_nm 0 9223372036854775808) = .ok C ∧
      C.dim = [0, 9223372036854775808 + 9223372036854775808] := by
  refine ⟨by decide, by decide, rfl, ?_⟩
  rintro ⟨C, h1, h2⟩
  have e : concate_h (matrix.ctor_nm 0 9223372036854775808 : matrix Int)
      (matrix.ctor_nm 0 9223372036854775808) = .ok (matrix.mk [] [0, 0]) := rfl
  rw [e] at h1
  injection h1 with h1
  subst h1
  revert h2
  decide

/-! ## C9 - C10: failures -/

/-- C9. `ShapeMismatch` is raised exactly when a dimensional precondition fails: for
well-formed, storable `A` (`n x m`) and `B` (`n1 x m1`) over any element type with `0`, `+`,
`-` and `*`, each of `A + B`, `A - B`, `A ^ B` stops on its assertion iff the shapes differ
and returns a matrix iff they agree; `A * B` stops on its assertion iff `m != n1` and returns
a matrix iff `m == n1`; `concate_h(A, B)` likewise with `n != n1`, and `concate_v(A, B)` with
`m != m1`. -/
theorem shape_mismatch_iff [Zero T] [Add T] [Sub T] [Mul T] (A B : matrix T) (n m n1 m1 : Nat)
    (hA : WellFormed A n m) (hB : WellFormed B n1 m1) (sA : Storable A) (sB : Storable B) :
    ((ShapeMismatch (A.add B) ↔ ¬ (n = n1 ∧ m = m1)) ∧ (Succeeds (A.add B) ↔ (n = n1 ∧ m = m1))) ∧
    ((ShapeMismatch (A.sub B) ↔ ¬ (n = n1 ∧ m = m1)) ∧ (Succeeds (A.sub B) ↔ (n = n1 ∧ m = m1))) ∧
    ((ShapeMismatch (A.hadamard B) ↔ ¬ (n = n1 ∧ m = m1)) ∧
      (Succeeds (A.hadamard B) ↔ (n = n1 ∧ m = m1))) ∧
    ((ShapeMismatch (A.mul B) ↔ ¬ (m = n1)) ∧ (Succeeds (A.mul B) ↔ m = n1)) ∧
    ((ShapeMismatch (concate_h A B) ↔ ¬ (n = n1)) ∧ (Succeeds (concate_h A B) ↔ n = n1)) ∧
    ((ShapeMismatch (concate_v A B) ↔ ¬ (m = m1)) ∧ (Succeeds (concate_v A B) ↔ m = m1)) := by
  refine ⟨fails_iff _ _ ?_ ?_, fails_iff _ _ ?_ ?_, fails_iff _ _ ?_ ?_, fails_iff _ _ ?_ ?_,
    fails_iff _ _ ?_ ?_, fails_iff _ _ ?_ ?_⟩
  · rintro ⟨rfl, rfl⟩
    obtain ⟨C, h, _⟩ := add_eq hA hB
    exact ⟨C, h⟩
  · intro h
    unfold matrix.add
    rw [if_neg (dim_ne_of_shape_ne hA hB h)]
  · rintro ⟨rfl, rfl⟩
    obtain ⟨C, h, _⟩ := sub_eq hA hB
    exact ⟨C, h⟩
  · intro h
    unfold matrix.sub
    rw [if_neg (dim_ne_of_shape_ne hA hB h)]
  · rintro ⟨rfl, rfl⟩
    obtain ⟨C, h, _⟩ := hadamard_eq hA hB
    exact ⟨C, h⟩
  · intro h
    unfold matrix.hadamard
    rw [if_neg (dim_ne_of_shape_ne hA hB h)]
  · rintro rfl
    obtain ⟨C, h, _⟩ := mul_ok hA hB
    exact ⟨C, h⟩
  · exact fun h => mul_mismatch hA hB h
  · rintro rfl
    by_cases hn : n = 0
    · subst hn
      exact ⟨_, concate_h_no_rows hA hB⟩
    · have h1 := Storable.cols_le hA sA (by omega)
      have h2 := Storable.cols_le hB sB (by omega)
      unfold VEC_MAX at h1 h2
      obtain ⟨C, h, _⟩ := concate_h_eq hA hB (by omega)
      exact ⟨C, h⟩
  · exact fun h => concate_h_mismatch hA hB h
  · rintro rfl
    have h1 := Storable.rows_le hA sA
    have h2 := Storable.rows_le hB sB
    unfold VEC_MAX at h1 h2
    obtain ⟨C, h, _⟩ := concate_v_eq hA hB (by omega)
    exact ⟨C, h⟩
  · exact fun h => concate_v_mismatch hA hB h

/-- C9 on a `2 x 2` and a `2 x 3` matrix: the cellwise operators and `concate_v` stop on
their assertion, the product and `concate_h` return a matrix. -/
theorem shape_mismatch_iff_witness :
    (ShapeMismatch ((matrix.mk [[1, 2], [3, 4]] [2, 2] : matrix Int).add
        (matrix.mk [[1, 2, 3], [4, 5, 6]] [2, 3])) ∧
      Succeeds ((matrix.mk [[1, 2], [3, 4]] [2, 2] : matrix Int).mul
        (matrix.mk [[1, 2, 3], [4, 5, 6]] [2, 3])) ∧
      Succeeds (concate_h (matrix.mk [[1, 2], [3, 4]] [2, 2] : matrix Int)
        (matrix.mk [[1, 2, 3], [4, 5, 6]] [2, 3])) ∧
      ShapeMismatch (concate_v (matrix.mk [[1, 2], [3, 4]] [2, 2] : matrix Int)
        (matrix.mk [[1, 2, 3], [4, 5, 6]] [2, 3]))) ∧
    WellFormed (matrix.mk [[1, 2], [3, 4]] [2, 2] : matrix Int) 2 2 ∧
    WellFormed (matrix.mk [[1, 2, 3], [4, 5, 6]] [2, 3] : matrix Int) 2 3 ∧
    Storable (matrix.mk [[1, 2], [3, 4]] [2, 2] : matrix Int) ∧
    Storable (matrix.mk [[1, 2, 3], [4, 5, 6]] [2, 3] : matrix Int) :=
  have h := shape_mismatch_iff (matrix.mk [[1, 2], [3, 4]] [2, 2] : matrix Int)
    (matrix.mk [[1, 2, 3], [4, 5, 6]] [2, 3]) 2 2 2 3 (by decide) (by decide) (by decide)
    (by decide)
  ⟨⟨h.1.1.2 (by decide), h.2.2.2.1.2.2 rfl, h.2.2.2.2.1.2.2 rfl, h.2.2.2.2.2.1.2 (by decide)⟩,
    by decide, by decide, by decide, by decide⟩

/-- C10. Atomicity of failing in-place operators: for well-formed `A` (`n x m`) and `B`
(`n1 x m1`) over any element type with `0`, `+`, `-` and `*` (a right operand of another shape
is another object than `A`), if the shapes differ then `A += B`, `A -= B` and `A ^= B` stop
on their assertion with `A` exactly as it was, and if `m != n1` then so does `A *= B`; the
right operand, read when the operator has stopped, is still `B`. -/
theorem inplace_failure_atomic [Zero T] [Add T] [Sub T] [Mul T] (A B : matrix T)
    (n m n1 m1 : Nat) (hA : WellFormed A n m) (hB : WellFormed B n1 m1) :
    (¬ (n = n1 ∧ m = m1) →
      A.add_assign (.other B) = .fault .assertion A ∧
      A.sub_assign (.other B) = .fault .assertion A ∧
      A.hadamard_assign (.other B) = .fault .assertion A) ∧
    (m ≠ n1 → A.mul_assign (.other B) = .fault .assertion A) ∧
    (MatrixRef.other B).read A = B := by
  refine ⟨?_, ?_, rfl⟩
  · intro h
    have hd : ¬ A.dim = ((MatrixRef.other B).read A).dim := dim_ne_of_shape_ne hA hB h
    refine ⟨?_, ?_, ?_⟩
    · unfold matrix.add_assign
      rw [if_neg hd]
    · unfold matrix.sub_assign
      rw [if_neg hd]
    · unfold matrix.hadamard_assign
      rw [if_neg hd]
  · intro h
    unfold matrix.mul_assign
    rw [MatrixRef.read_other, mul_mismatch hA hB h]

/-- C10 on a `2 x 2` left operand and a `1 x 3` right operand. -/
theorem inplace_failure_atomic_witness :
    WellFormed (matrix.mk [[1, 2], [3, 4]] [2, 2] : matrix Int) 2 2 ∧
    WellFormed (matrix.mk [[5, 6, 7]] [1, 3] : matrix Int) 1 3 ∧
    ((matrix.mk [[1, 2], [3, 4]] [2, 2] : matrix Int).add_assign
          (.other (matrix.mk [[5, 6, 7]] [1, 3]))
        = .fault .assertion (matrix.mk [[1, 2], [3, 4]] [2, 2]) ∧
      (matrix.mk [[1, 2], [3, 4]] [2, 2] : matrix Int).sub_assign
          (.other (matrix.mk [[5, 6, 7]] [1, 3]))
        = .fault .assertion (matrix.mk [[1, 2], [3, 4]] [2, 2]) ∧
      (matrix.mk [[1, 2], [3, 4]] [2, 2] : matrix Int).hadamard_assign
          (.other (matrix.mk [[5, 6, 7]] [1, 3]))
        = .fault .assertion (matrix.mk [[1, 2], [3, 4]] [2, 2])) ∧
    (matrix.mk [[1, 2], [3, 4]] [2, 2] : matrix Int).mul_assign
          (.other (matrix.mk [[5, 6, 7]] [1, 3]))
        = .fault .assertion (matrix.mk [[1, 2], [3, 4]] [2, 2]) ∧
    (MatrixRef.other (matrix.mk [[5, 6, 7]] [1, 3] : matrix Int)).read
        (matrix.mk [[1, 2], [3, 4]] [2, 2]) = matrix.mk [[5, 6, 7]] [1, 3] :=
  have h := inplace_failure_atomic (matrix.mk [[1, 2], [3, 4]] [2, 2] : matrix Int)
    (matrix.mk [[5, 6, 7]] [1, 3]) 2 2 1 3 (by decide) (by decide)
  ⟨by decide, by decide, h.1 (by decide), h.2.1 (by decide), h.2.2⟩

/-! ## C11 - C12: in-place operators and resize -/

/-- C12. Resize semantics: for a well-formed `A` of shape `(n, m)` and any `(n1, m1)`,
`A.resize(n1, m1)` completes, is the same as `A.resize({n1, m1})`, and leaves a well-formed
matrix of shape `(n1, m1)` whose cell `(i, j)` is the old cell when `i < min(n, n1)` and
`j < min(m, m1)` and `0` otherwise; when `n1 >= n` and `m1 >= m` every old cell is kept and
every new cell is `0`. -/
theorem resize_semantics [Zero T] (A : matrix T) (n m n1 m1 : Nat) (hA : WellFormed A n m) :
    ∃ R, A.resize n1 m1 = .done R ∧ A.resize_d [n1, m1] = .done R ∧
      R.dim = [n1, m1] ∧ WellFormed R n1 m1 ∧
      (∀ i j, i < n1 → j < m1 →
        R.get i j = .ok (if i < min n n1 ∧ j < min m m1 then A.entry i j else 0)) ∧
      (n ≤ n1 → m ≤ m1 →
        (∀ i j, i < n → j < m → R.get i j = .ok (A.entry i j)) ∧
        (∀ i j, i < n1 → j < m1 → ¬ (i < n ∧ j < m) → R.get i j = .ok 0)) := by
  obtain ⟨R, h1, h2, h3⟩ := resize_eq hA n1 m1
  refine ⟨R, h1, h1, h2.1, h2, ?_, ?_⟩
  · intro i j hi hj
    rw [get_of_wf h2 hi hj, h3 i j hi hj]
    have e : (i < min n n1 ∧ j < min m m1) ↔ (i < n ∧ j < m) := by
      constructor
      · rintro ⟨a, b⟩; exact ⟨by omega, by omega⟩
      · rintro ⟨a, b⟩; exact ⟨by omega, by omega⟩
    simp only [e]
  · intro hn hm
    constructor
    · intro i j hi hj
      rw [get_of_wf h2 (by omega) (by omega), h3 i j (by omega) (by omega), if_pos ⟨hi, hj⟩]
    · intro i j hi hj hc
      rw [get_of_wf h2 hi hj, h3 i j hi hj, if_neg hc]

/-- C12 on a `2 x 2` matrix grown to `3 x 3` and shrunk to `1 x 3`. -/
theorem resize_semantics_witness :
    ((matrix.mk [[1, 2], [3, 4]] [2, 2] : matrix Int).resize 3 3
        = .done (matrix.mk [[1, 2, 0], [3, 4, 0], [0, 0, 0]] [3, 3]) ∧
      (matrix.mk [[1, 2], [3, 4]] [2, 2] : matrix Int).resize 1 3
        = .done (matrix.mk [[1, 2, 0]] [1, 3])) ∧
    WellFormed (matrix.mk [[1, 2], [3, 4]] [2, 2] : matrix Int) 2 2 ∧
    ∃ R, (matrix.mk [[1, 2], [3, 4]] [2, 2] : matrix Int).resize 3 3 = .done R ∧
      (matrix.mk [[1, 2], [3, 4]] [2, 2] : matrix Int).resize_d [3, 3] = .done R ∧
      R.dim = [3, 3] ∧ WellFormed R 3 3 ∧
      (∀ i j, i < 3 → j < 3 →
        R.get i j = .ok (if i < min 2 3 ∧ j < min 2 3 then
          (matrix.mk [[1, 2], [3, 4]] [2, 2] : matrix Int).entry i j else 0)) ∧
      (2 ≤ 3 → 2 ≤ 3 →
        (∀ i j, i < 2 → j < 2 →
          R.get i j = .ok ((matrix.mk [[1, 2], [3, 4]] [2, 2] : matrix Int).entry i j)) ∧
        (∀ i j, i < 3 → j < 3 → ¬ (i < 2 ∧ j < 2) → R.get i j = .ok 0)) :=
  ⟨⟨rfl, rfl⟩, by decide, resize_semantics _ 2 2 3 3 (by decide)⟩

/-! ## C13 - C14: the default constructor and shapes that are not of rank 2 -/

/-- C13, the code at `matrix<T>()`: the default constructor leaves `dim` empty, so the
matrix has no rows but its shape vector is not `{0, 0}`; it is not the matrix that
`matrix<T>(0, 0)` builds, it is not well-formed, and `transpose()` on it reads `dim[1]`
outside the vector. -/
theorem default_ctor_dim_empty :
    (matrix.ctor_default : matrix Int).data = [] ∧
    (matrix.ctor_default : matrix Int).dim = [] ∧
    (matrix.ctor_default : matrix Int).dim ≠ [0, 0] ∧
    (matrix.ctor_nm 0 0 : matrix Int).dim = [0, 0] ∧
    (matrix.ctor_default : matrix Int) ≠ matrix.ctor_nm 0 0 ∧
    ¬ WellFormed (matrix.ctor_default : matrix Int) 0 0 ∧
    (matrix.ctor_default : matrix Int).transpose = .error .outOfRange := by
  refine ⟨rfl, rfl, by decide, rfl, by decide, by decide, rfl⟩

/-- C16. Transpose involution: for a well-formed `A` of shape `(n, m)`, `A.transpose()`
succeeds with shape `(m, n)` and cell `(j, i)` equal to `A[i][j]`, and transposing twice gives
back `A`, shape vector and data, also when `n = 0` or `m = 0`. -/
theorem transpose_involution [Zero T] (A : matrix T) (n m : Nat) (hA : WellFormed A n m) :
    (∃ R, A.transpose = .ok R ∧ R.dim = [m, n] ∧ WellFormed R m n ∧
      ∀ i j, i < n → j < m → R.get j i = .ok (A.entry i j)) ∧
    (A.transpose >>= fun R => R.transpose) = .ok A := by
  obtain ⟨R, r1, r2, r3⟩ := transpose_eq hA
  obtain ⟨S, s1, s2, s3⟩ := transpose_eq r2
  refine ⟨⟨R, r1, r2.1, r2, ?_⟩, ?_⟩
  · intro i j hi hj
    rw [get_of_wf r2 hj hi, r3 j i hj hi]
  · rw [r1, bind_ok, s1]
    congr 1
    apply wf_ext s2 hA
    intro i j hi hj
    rw [s3 i j hi hj, r3 j i hj hi]

/-- C16 on a `2 x 3` matrix and on a `0 x 3` matrix. -/
theorem transpose_involution_witness :
    ((matrix.mk [[1, 2, 3], [4, 5, 6]] [2, 3] : matrix Int).transpose
        = .ok (matrix.mk [[1, 4], [2, 5], [3, 6]] [3, 2]) ∧
      ((matrix.mk [] [0, 3] : matrix Int).transpose
        = .ok (matrix.mk [[], [], []] [3, 0]))) ∧
    WellFormed (matrix.mk [[1, 2, 3], [4, 5, 6]] [2, 3] : matrix Int) 2 3 ∧
    WellFormed (matrix.mk [] [0, 3] : matrix Int) 0 3 ∧
    ((∃ R, (matrix.mk [[1, 2, 3], [4, 5, 6]] [2, 3] : matrix Int).transpose = .ok R ∧
        R.dim = [3, 2] ∧ WellFormed R 3 2 ∧
        ∀ i j, i < 2 → j < 3 →
          R.get j i = .ok ((matrix.mk [[1, 2, 3], [4, 5, 6]] [2, 3] : matrix Int).entry i j)) ∧
      ((matrix.mk [[1, 2, 3], [4, 5, 6]] [2, 3] : matrix Int).transpose >>= fun R => R.transpose)
        = .ok (matrix.mk [[1, 2, 3], [4, 5, 6]] [2, 3])) ∧
    ((matrix.mk [] [0, 3] : matrix Int).transpose >>= fun R => R.transpose)
        = .ok (matrix.mk [] [0, 3]) :=
  ⟨⟨rfl, rfl⟩, by decide, by decide, transpose_involution _ 2 3 (by decide),
    (transpose_involution _ 0 3 (by decide)).2⟩

/-- C17. Apply composition: for a well-formed `A` and functions `f`, `g`, `A.apply(f)`
succeeds with the shape of `A` and cell `(i, j)` equal to `f(A[i][j])`, and
`A.apply(f).apply(g)` is the matrix that `A.apply(x -> g(f(x)))` returns. -/
theorem apply_composition [Zero T] (A : matrix T) (n m : Nat) (f g : T → T)
    (hA : WellFormed A n m) :
    (∃ R, A.apply f = .ok R ∧ R.dim = A.dim ∧ WellFormed R n m ∧
      ∀ i j, i < n → j < m → R.get i j = .ok (f (A.entry i j))) ∧
    ∃ R, (A.apply f >>= fun X => X.apply g) = .ok R ∧ A.apply (fun x => g (f x)) = .ok R := by
  obtain ⟨X, x1, x2, x3⟩ := apply_eq hA f
  obtain ⟨Y, y1, y2, y3⟩ := apply_eq x2 g
  obtain ⟨Z, z1, z2, z3⟩ := apply_eq hA (fun x => g (f x))
  refine ⟨⟨X, x1, x2.1.trans hA.1.symm, x2, ?_⟩, Y, by rw [x1, bind_ok, y1], ?_⟩
  · intro i j hi hj
    rw [get_of_wf x2 hi hj, x3 i j hi hj]
  · rw [z1]
    congr 1
    apply wf_ext z2 y2
    intro i j hi hj
    rw [z3 i j hi hj, y3 i j hi hj, x3 i j hi hj]

/-- C17, on the scenario of the specification:
`[[2,0],[0,3]].apply(x -> x + 1) == [[3,1],[1,4]]`. -/
theorem apply_composition_witness :
    (matrix.mk [[2, 0], [0, 3]] [2, 2] : matrix Int).apply (fun x => x + 1)
        = .ok (matrix.mk [[3, 1], [1, 4]] [2, 2]) ∧
    WellFormed (matrix.mk [[2, 0], [0, 3]] [2, 2] : matrix Int) 2 2 ∧
    (∃ R, (matrix.mk [[2, 0], [0, 3]] [2, 2] : matrix Int).apply (fun x => x + 1) = .ok R ∧
      R.dim = (matrix.mk [[2, 0], [0, 3]] [2, 2] : matrix Int).dim ∧ WellFormed R 2 2 ∧
      ∀ i j, i < 2 → j < 2 →
        R.get i j = .ok ((matrix.mk [[2, 0], [0, 3]] [2, 2] : matrix Int).entry i j + 1)) ∧
    ∃ R, ((matrix.mk [[2, 0], [0, 3]] [2, 2] : matrix Int).apply (fun x => x + 1) >>=
        fun X => X.apply (fun x => 2 * x)) = .ok R ∧
      (matrix.mk [[2, 0], [0, 3]] [2, 2] : matrix Int).apply (fun x => 2 * (x + 1)) = .ok R :=
  ⟨rfl, by decide, apply_composition _ 2 2 (fun x => x + 1) (fun x => 2 * x) (by decide)⟩

/-- C18. Scalar distributivity: for well-formed `A`, `B` of the same shape over a
commutative ring and a scalar `k`, `A * k` succeeds with the shape of `A` and cell `(i, j)`
equal to `k * A[i][j]`, and `(A + B) * k` and `A * k + B * k` both succeed and are the same
matrix. -/
theorem scalar_distributivity [CommRing T] (A B : matrix T) (n m : Nat) (k : T)
    (hA : WellFormed A n m) (hB : WellFormed B n m) :
    (∃ R, A.smul k = .ok R ∧ R.dim = A.dim ∧ WellFormed R n m ∧
      ∀ i j, i < n → j < m → R.get i j = .ok (k * A.entry i j)) ∧
    ∃ R, (A.add B >>= fun S => S.smul k) = .ok R ∧
      (A.smul k >>= fun X => B.smul k >>= fun Y => X.add Y) = .ok R := by
  obtain ⟨X, x1, x2, x3⟩ := smul_eq hA k
  obtain ⟨Y, y1, y2, y3⟩ := smul_eq hB k
  obtain ⟨S, s1, s2, s3⟩ := add_eq hA hB
  obtain ⟨L, l1, l2, l3⟩ := smul_eq s2 k
  obtain ⟨R, r1, r2, r3⟩ := add_eq x2 y2
  refine ⟨⟨X, x1, x2.1.trans hA.1.symm, x2, ?_⟩, L, by rw [s1, bind_ok, l1], ?_⟩
  · intro i j hi hj
    rw [get_of_wf x2 hi hj, x3 i j hi hj, mul_comm]
  · rw [x1, bind_ok, y1, bind_ok, r1]
    congr 1
    apply wf_ext r2 l2
    intro i j hi hj
    rw [r3 i j hi hj, l3 i j hi hj, s3 i j hi hj, x3 i j hi hj, y3 i j hi hj, add_mul]

/-- C18 on concrete matrices, and scenario 3 of the specification: `ones(2,3) * 0` is
`zeros(2,3)`. -/
theorem scalar_distributivity_witness :
    ((ones 2 3 : Except Error (matrix Int)) >>= fun X => X.smul 0) = zeros 2 3 ∧
    WellFormed (matrix.mk [[1, 2], [3, 4]] [2, 2] : matrix Int) 2 2 ∧
    WellFormed (matrix.mk [[5, 6], [7, 8]] [2, 2] : matrix Int) 2 2 ∧
    (∃ R, (matrix.mk [[1, 2], [3, 4]] [2, 2] : matrix Int).smul 3 = .ok R ∧
      R.dim = (matrix.mk [[1, 2], [3, 4]] [2, 2] : matrix Int).dim ∧ WellFormed R 2 2 ∧
      ∀ i j, i < 2 → j < 2 →
        R.get i j = .ok (3 * (matrix.mk [[1, 2], [3, 4]] [2, 2] : matrix Int).entry i j)) ∧
    ∃ R, ((matrix.mk [[1, 2], [3, 4]] [2, 2] : matrix Int).add (matrix.mk [[5, 6], [7, 8]] [2, 2])
        >>= fun S => S.smul 3) = .ok R ∧
      ((matrix.mk [[1, 2], [3, 4]] [2, 2] : matrix Int).smul 3 >>= fun X =>
        (matrix.mk [[5, 6], [7, 8]] [2, 2] : matrix Int).smul 3 >>= fun Y => X.add Y) = .ok R :=
  ⟨rfl, by decide, by decide, scalar_distributivity _ _ 2 2 3 (by decide) (by decide)⟩

/-! ## C19 - C20: concatenation, product and transpose -/

/-- C19. The matrix product respects block structure: for well-formed `A` (`n x p`),
`B` (`p x q`), `C` (`p x r`) over a commutative ring, whenever matrices of `n` and of `p`
rows with `q + r` columns can be allocated, `A * concate_h(B, C)` and
`concate_h(A * B, A * C)` both succeed and are the same matrix, of shape `(n, q + r)` (the
sum taken in `size_t`); for well-formed `A` (`n x p`), `B` (`q x p`) and `C` (`p x r`),
whenever a matrix of `n + q` rows and `r` columns can be allocated, `concate_v(A, B) * C` and
`concate_v(A * C, B * C)` both succeed and are the same matrix, of shape `(n + q, r)`. -/
theorem product_block_structure [CommRing T] (A B C : matrix T) (n p q r : Nat) :
    (WellFormed A n p → WellFormed B p q → WellFormed C p r →
      Allocatable n (q + r) → Allocatable p (q + r) →
      ∃ R, (concate_h B C >>= fun H => A.mul H) = .ok R ∧
        (A.mul B >>= fun X => A.mul C >>= fun Y => concate_h X Y) = .ok R ∧
        WellFormed R n (size_add q r)) ∧
    (WellFormed A n p → WellFormed B q p → WellFormed C p r → Allocatable (n + q) r →
      ∃ R, (concate_v A B >>= fun V => V.mul C) = .ok R ∧
        (A.mul C >>= fun X => B.mul C >>= fun Y => concate_v X Y) = .ok R ∧
        WellFormed R (n + q) r) := by
  constructor
  · intro hA hB hC an ap
    obtain ⟨X, x1, x2, x3⟩ := mul_eq hA hB
    obtain ⟨Y, y1, y2, y3⟩ := mul_eq hA hC
    by_cases h0 : n = 0 ∧ p = 0
    · obtain ⟨rfl, rfl⟩ := h0
      obtain ⟨L, l1, l2, _⟩ := mul_eq hA (wf_ctor_nm 0 (size_add q r))
      refine ⟨L, by rw [concate_h_no_rows hB hC, bind_ok, l1], ?_, l2⟩
      rw [x1, bind_ok, y1, bind_ok, concate_h_no_rows x2 y2]
      congr 1
      exact wf_ext (wf_ctor_nm 0 (size_add q r)) l2 (fun i j hi _ => absurd hi (by omega))
    · have hle : q + r ≤ VEC_MAX := by
        by_cases hn : 0 < n
        · exact an.2 hn
        · exact ap.2 (by omega)
      have hlt : q + r < 2 ^ 64 := by
        unfold VEC_MAX at hle
        omega
      rw [size_add_eq q r hlt]
      obtain ⟨H, h1, h2, h3⟩ := concate_h_eq hB hC hlt
      obtain ⟨L, l1, l2, l3⟩ := mul_eq hA h2
      obtain ⟨R, r1, r2, r3⟩ := concate_h_eq x2 y2 hlt
      refine ⟨L, by rw [h1, bind_ok, l1], ?_, l2⟩
      rw [x1, bind_ok, y1, bind_ok, r1]
      congr 1
      apply wf_ext r2 l2
      intro i j hi hj
      rw [l3 i j hi hj]
      by_cases c : j < q
      · rw [(r3 i j hi).1 c, x3 i j hi c]
        apply Finset.sum_congr rfl
        intro k hk
        rw [(h3 k j (Finset.mem_range.1 hk)).1 c]
      · rw [(r3 i j hi).2 (by omega) hj, y3 i (j - q) hi (by omega)]
        apply Finset.sum_congr rfl
        intro k hk
        rw [(h3 k j (Finset.mem_range.1 hk)).2 (by omega) hj]
  · intro hA hB hC al
    have hlt : n + q < 2 ^ 64 := by
      have h1 := al.1
      unfold VEC_MAX at h1
      omega
    obtain ⟨V, v1, v2, v3⟩ := concate_v_eq hA hB hlt
    obtain ⟨L, l1, l2, l3⟩ := mul_eq v2 hC
    obtain ⟨X, x1, x2, x3⟩ := mul_eq hA hC
    obtain ⟨Y, y1, y2, y3⟩ := mul_eq hB hC
    obtain ⟨R, r1, r2, r3⟩ := concate_v_eq x2 y2 hlt
    refine ⟨L, by rw [v1, bind_ok, l1], ?_, l2⟩
    rw [x1, bind_ok, y1, bind_ok, r1]
    congr 1
    apply wf_ext r2 l2
    intro i j hi hj
    rw [l3 i j hi hj]
    by_cases c : i < n
    · rw [(r3 i j hj).1 c, x3 i j c hj]
      apply Finset.sum_congr rfl
      intro k hk
      rw [(v3 i k (Finset.mem_range.1 hk)).1 c]
    · rw [(r3 i j hj).2 (by omega) hi, y3 (i - n) j (by omega) hj]
      apply Finset.sum_congr rfl
      intro k hk
      rw [(v3 i k (Finset.mem_range.1 hk)).2 (by omega) hi]

/-- C19 on concrete matrices, and on the empty `A` with two `0 x 9223372036854775808`
blocks, whose column sum wraps to `0` on both sides. -/
theorem product_block_structure_witness :
    ((concate_h (matrix.mk [[1], [2]] [2, 1] : matrix Int) (matrix.mk [[3, 4], [5, 6]] [2, 2])
        >>= fun H => (matrix.mk [[1, 2], [3, 4]] [2, 2] : matrix Int).mul H)
      = .ok (matrix.mk [[5, 13, 16], [11, 29, 36]] [2, 3])) ∧
    (WellFormed (matrix.mk [[1, 2], [3, 4]] [2, 2] : matrix Int) 2 2 ∧
      WellFormed (matrix.mk [[1], [2]] [2, 1] : matrix Int) 2 1 ∧
      WellFormed (matrix.mk [[3, 4], [5, 6]] [2, 2] : matrix Int) 2 2 ∧
      WellFormed (matrix.mk [[1, 2]] [1, 2] : matrix Int) 1 2 ∧
      Allocatable 2 (1 + 2) ∧ Allocatable (1 + 2) 1) ∧
    (∃ R, (concate_h (matrix.mk [[1], [2]] [2, 1] : matrix Int)
          (matrix.mk [[3, 4], [5, 6]] [2, 2]) >>= fun H =>
          (matrix.mk [[1, 2], [3, 4]] [2, 2] : matrix Int).mul H) = .ok R ∧
        ((matrix.mk [[1, 2], [3, 4]] [2, 2] : matrix Int).mul (matrix.mk [[1], [2]] [2, 1])
          >>= fun X => (matrix.mk [[1, 2], [3, 4]] [2, 2] : matrix Int).mul
            (matrix.mk [[3, 4], [5, 6]] [2, 2]) >>= fun Y => concate_h X Y) = .ok R ∧
        WellFormed R 2 (size_add 1 2)) ∧
    (∃ R, (concate_v (matrix.mk [[1, 2]] [1, 2] : matrix Int)
          (matrix.mk [[3, 4], [5, 6]] [2, 2]) >>= fun V =>
          V.mul (matrix.mk [[1], [2]] [2, 1])) = .ok R ∧
        ((matrix.mk [[1, 2]] [1, 2] : matrix Int).mul (matrix.mk [[1], [2]] [2, 1])
          >>= fun X => (matrix.mk [[3, 4], [5, 6]] [2, 2] : matrix Int).mul
            (matrix.mk [[1], [2]] [2, 1]) >>= fun Y => concate_v X Y) = .ok R ∧
        WellFormed R (1 + 2) 1) ∧
    (WellFormed (matrix.mk [] [0, 0] : matrix Int) 0 0 ∧
      WellFormed (matrix.mk [] [0, 9223372036854775808] : matrix Int) 0 9223372036854775808 ∧
      Allocatable 0 (9223372036854775808 + 9223372036854775808) ∧
      size_add 9223372036854775808 9223372036854775808 = 0 ∧
      ∃ R, (concate_h (matrix.mk [] [0, 9223372036854775808] : matrix Int)
          (matrix.mk [] [0, 9223372036854775808]) >>= fun H =>
          (matrix.mk [] [0, 0] : matrix Int).mul H) = .ok R ∧
        ((matrix.mk [] [0, 0] : matrix Int).mul (matrix.mk [] [0, 9223372036854775808])
          >>= fun X => (matrix.mk [] [0, 0] : matrix Int).mul
            (matrix.mk [] [0, 9223372036854775808]) >>= fun Y => concate_h X Y) = .ok R ∧
        WellFormed R 0 (size_add 9223372036854775808 9223372036854775808)) :=
  ⟨rfl, ⟨by decide, by decide, by decide, by decide, by decide, by decide⟩,
    (product_block_structure (matrix.mk [[1, 2], [3, 4]] [2, 2] : matrix Int)
      (matrix.mk [[1], [2]] [2, 1]) (matrix.mk [[3, 4], [5, 6]] [2, 2]) 2 2 1 2).1
      (by decide) (by decide) (by decide) (by decide) (by decide),
    (product_block_structure (matrix.mk [[1, 2]] [1, 2] : matrix Int)
      (matrix.mk [[3, 4], [5, 6]] [2, 2]) (matrix.mk [[1], [2]] [2, 1]) 1 2 2 1).2
      (by decide) (by decide) (by decide) (by decide),
    by decide, by decide, by decide, by decide,
    (product_block_structure (matrix.mk [] [0, 0] : matrix Int)
      (matrix.mk [] [0, 9223372036854775808]) (matrix.mk [] [0, 9223372036854775808]) 0 0
      9223372036854775808 9223372036854775808).1
      (by decide) (by decide) (by decide) (by decide) (by decide)⟩

/-- C20. Vertical concatenation is the transpose-dual of horizontal concatenation: for
well-formed, storable `A` (`na x m`) and `B` (`nb x m`), `concate_v(A, B)` and
`concate_h(A.transpose(), B.transpose()).transpose()` both succeed and are the same matrix,
of shape `(na + nb, m)`, also when `m = 0` or a row count is `0`. -/
theorem concate_v_transpose_dual [Zero T] (A B : matrix T) (na nb m : Nat)
    (hA : WellFormed A na m) (hB : WellFormed B nb m) (sA : Storable A) (sB : Storable B) :
    ∃ R, concate_v A B = .ok R ∧
      (A.transpose >>= fun At => B.transpose >>= fun Bt =>
        concate_h At Bt >>= fun H => H.transpose) = .ok R ∧
      R.dim = [na + nb, m] := by
  have hlt : na + nb < 2 ^ 64 := by
    have h1 := Storable.rows_le hA sA
    have h2 := Storable.rows_le hB sB
    unfold VEC_MAX at h1 h2
    omega
  obtain ⟨V, v1, v2, v3⟩ := concate_v_eq hA hB hlt
  obtain ⟨At, a1, a2, a3⟩ := transpose_eq hA
  obtain ⟨Bt, b1, b2, b3⟩ := transpose_eq hB
  obtain ⟨H, h1, h2, h3⟩ := concate_h_eq a2 b2 hlt
  obtain ⟨R, r1, r2, r3⟩ := transpose_eq h2
  refine ⟨V, v1, ?_, v2.1⟩
  rw [a1, bind_ok, b1, bind_ok, h1, bind_ok, r1]
  congr 1
  apply wf_ext r2 v2
  intro i j hi hj
  rw [r3 i j hi hj]
  by_cases c : i < na
  · rw [(h3 j i hj).1 c, a3 j i hj c, (v3 i j hj).1 c]
  · rw [(h3 j i hj).2 (by omega) hi, b3 j (i - na) hj (by omega), (v3 i j hj).2 (by omega) hi]

/-- C20 on concrete matrices, and on matrices without columns. -/
theorem concate_v_transpose_dual_witness :
    (concate_v (matrix.mk [[], []] [2, 0] : matrix Int) (matrix.mk [[]] [1, 0])
        = .ok (matrix.mk [[], [], []] [3, 0]) ∧
      ((matrix.mk [[], []] [2, 0] : matrix Int).transpose >>= fun At =>
        (matrix.mk [[]] [1, 0] : matrix Int).transpose >>= fun Bt =>
        concate_h At Bt >>= fun H => H.transpose) = .ok (matrix.mk [[], [], []] [3, 0])) ∧
    WellFormed (matrix.mk [[1, 2]] [1, 2] : matrix Int) 1 2 ∧
    WellFormed (matrix.mk [[3, 4], [5, 6]] [2, 2] : matrix Int) 2 2 ∧
    ∃ R, concate_v (matrix.mk [[1, 2]] [1, 2] : matrix Int) (matrix.mk [[3, 4], [5, 6]] [2, 2])
        = .ok R ∧
      ((matrix.mk [[1, 2]] [1, 2] : matrix Int).transpose >>= fun At =>
        (matrix.mk [[3, 4], [5, 6]] [2, 2] : matrix Int).transpose >>= fun Bt =>
        concate_h At Bt >>= fun H => H.transpose) = .ok R ∧
      R.dim = [1 + 2, 2] :=
  ⟨⟨rfl, rfl⟩, by decide, by decide,
    concate_v_transpose_dual _ _ 1 2 2 (by decide) (by decide) (by decide) (by decide)⟩


end SimpleNN
